import Mathlib

/-!
# Verification of `react-create-use-async`

A shallow embedding of `src/createUseAsync.ts` and `src/CatchUseAsyncError.tsx`:
the request fingerprint (`getKey`), the cache entry state machine, the
admission / deduplication / priority-preemption protocol (`startLoading`),
the public operations (`read`, `preload`, `invalidate`, `invalidateAll`),
the fetch-attempt lifecycle of the task queue, and the notification emitter.

Modelling conventions:
* JavaScript numbers in request fields are modelled as integers (`Int`).
* `localeCompare` on field names is modelled as code-point lexicographic order.
* The single-threaded event-loop execution model of §5 of the design is made
  explicit: every synchronous block of the source (a public call, the prefix
  of a queued task body up to its first `await`, and the settlement
  continuation after `await fetchData(args)`) is one atomic step of a
  transition system over `SysState`.
-/

set_option maxHeartbeats 1600000

namespace CreateUseAsync

/-- JavaScript scalar values allowed as request fields by the source type
`Args extends { [key: string]: string | number | undefined }`.
Numbers are modelled as integers. -/
inductive JVal where
  | str (s : String)
  | num (n : Int)
  | undef
deriving DecidableEq

/-- A Request: a JavaScript object literal of scalar fields, modelled as its
field list in insertion order. -/
abbrev Request := List (String × JVal)

/-- Code-point lexicographic comparison of strings as character lists; the
model of the `([a], [b]) => a.localeCompare(b)` comparator in `getKey`. -/
def charListLe : List Char → List Char → Bool
  | [], _ => true
  | _ :: _, [] => false
  | a :: as, b :: bs =>
    if a.toNat < b.toNat then true
    else if b.toNat < a.toNat then false
    else charListLe as bs

theorem charListLe_total : ∀ a b, charListLe a b = true ∨ charListLe b a = true := by
  intro a
  induction a with
  | nil => intro b; left; rfl
  | cons x xs ih =>
    intro b
    cases b with
    | nil => right; rfl
    | cons y ys =>
      by_cases h1 : x.toNat < y.toNat
      · left; simp [charListLe, h1]
      · by_cases h2 : y.toNat < x.toNat
        · right; simp [charListLe, h2]
        · rcases ih ys with h | h
          · left; simp [charListLe, h1, h2, h]
          · right; simp [charListLe, h1, h2, h]

theorem charListLe_trans : ∀ a b c, charListLe a b = true → charListLe b c = true →
    charListLe a c = true := by
  intro a
  induction a with
  | nil => intro b c _ _; rfl
  | cons x xs ih =>
    intro b c hab hbc
    cases b with
    | nil => simp [charListLe] at hab
    | cons y ys =>
      cases c with
      | nil => simp [charListLe] at hbc
      | cons z zs =>
        simp only [charListLe] at hab hbc ⊢
        split at hab
        · rename_i hxy
          split at hbc
          · rename_i hyz
            rw [if_pos (by omega)]
          · split at hbc
            · exact absurd hbc (by simp)
            · rename_i hyz hzy
              rw [if_pos (by omega)]
        · split at hab
          · exact absurd hab (by simp)
          · rename_i hxy hyx
            split at hbc
            · rename_i hyz
              rw [if_pos (by omega)]
            · split at hbc
              · exact absurd hbc (by simp)
              · rename_i hyz hzy
                rw [if_neg (by omega), if_neg (by omega)]
                exact ih ys zs hab hbc

theorem charListLe_antisymm : ∀ a b, charListLe a b = true → charListLe b a = true →
    a = b := by
  intro a
  induction a with
  | nil =>
    intro b _ hba
    cases b with
    | nil => rfl
    | cons y ys => simp [charListLe] at hba
  | cons x xs ih =>
    intro b hab hba
    cases b with
    | nil => simp [charListLe] at hab
    | cons y ys =>
      simp only [charListLe] at hab hba
      by_cases hxy : x.toNat < y.toNat
      · simp [show ¬ y.toNat < x.toNat by omega, hxy] at hba
      · by_cases hyx : y.toNat < x.toNat
        · simp [hxy, hyx] at hab
        · simp only [if_neg hxy, if_neg hyx] at hab hba
          have hx : x = y := by
            have ht : x.toNat = y.toNat := by omega
            exact Char.ext (UInt32.toNat.inj ht)
          rw [hx, ih ys hab hba]

/-- Ordering of request entries by field name; the sort comparator of `getKey`. -/
def entryLe (p q : String × JVal) : Prop := charListLe p.1.data q.1.data = true

instance : DecidableRel entryLe := fun _ _ => inferInstanceAs (Decidable (_ = true))

instance : IsTotal (String × JVal) entryLe :=
  ⟨fun p q => charListLe_total p.1.data q.1.data⟩

instance : IsTrans (String × JVal) entryLe :=
  ⟨fun _ _ _ h1 h2 => charListLe_trans _ _ _ h1 h2⟩

/-- `Object.entries(omit(args, "priority"))`: the request fields minus `priority`. -/
def omitPriority (args : Request) : Request := args.filter (fun p => p.1 != "priority")

/-- `.sort(([a], [b]) => a.localeCompare(b))`: sort the entries by field name. -/
def sortEntries (l : List (String × JVal)) : List (String × JVal) :=
  List.insertionSort entryLe l

/-- Decimal digit characters of a natural number, most significant first;
the model of JavaScript number-to-string for integral values. -/
def natDigits (n : Nat) : List Char :=
  if _h : n < 10 then [Char.ofNat (48 + n)]
  else natDigits (n / 10) ++ [Char.ofNat (48 + n % 10)]
decreasing_by exact Nat.div_lt_self (by omega) (by omega)

/-- Lowercase hexadecimal digit character. -/
def hexDigitChar (n : Nat) : Char :=
  if n < 10 then Char.ofNat (48 + n) else Char.ofNat (87 + n)

/-- `JSON.stringify` escaping of one character inside a string literal
(ECMA-262 QuoteJSONString). -/
def escChar (c : Char) : List Char :=
  if c = '\"' then ['\\', '\"']
  else if c = '\\' then ['\\', '\\']
  else if c = Char.ofNat 8 then ['\\', 'b']
  else if c = Char.ofNat 12 then ['\\', 'f']
  else if c = '\n' then ['\\', 'n']
  else if c = Char.ofNat 13 then ['\\', 'r']
  else if c = '\t' then ['\\', 't']
  else if c.toNat < 32 then
    ['\\', 'u', '0', '0', hexDigitChar (c.toNat / 16), hexDigitChar (c.toNat % 16)]
  else [c]

/-- `JSON.stringify` escaping of a whole string body. -/
def escape (l : List Char) : List Char := (l.map escChar).flatten

/-- `JSON.stringify` of one scalar value occurring inside an array;
`undefined` serializes as `null` there. -/
def encVal : JVal → List Char
  | .str s => '\"' :: (escape s.data ++ ['\"'])
  | .num n => if n < 0 then '-' :: natDigits n.natAbs else natDigits n.natAbs
  | .undef => ['n', 'u', 'l', 'l']

/-- `JSON.stringify` of one `[name, value]` entry. -/
def encPair (p : String × JVal) : List Char :=
  '[' :: (('\"' :: (escape p.1.data ++ ['\"'])) ++ (',' :: (encVal p.2 ++ [']'])))

/-- Join encoded elements with commas, as `JSON.stringify` does for arrays. -/
def joinComma : List (List Char) → List Char
  | [] => []
  | [x] => x
  | x :: xs => x ++ (',' :: joinComma xs)

/-- `JSON.stringify` of the (already sorted) entry array. -/
def encList (l : List (String × JVal)) : List Char :=
  '[' :: (joinComma (l.map encPair) ++ [']'])

/-- `getKey` from `createUseAsync.ts`:
`JSON.stringify(Object.entries(omit(args, "priority")).sort(([a],[b]) => a.localeCompare(b)))`. -/
def getKey (args : Request) : String :=
  String.mk (encList (sortEntries (omitPriority args)))

/-! ### A decoder for the fingerprint encoding

The decoder below is used only to prove that the serialization above is
injective; it is not part of the source program. -/

/-- Value of a hexadecimal digit character. -/
def hexVal (c : Char) : Nat :=
  if 48 ≤ c.toNat ∧ c.toNat ≤ 57 then c.toNat - 48
  else if 97 ≤ c.toNat ∧ c.toNat ≤ 102 then c.toNat - 87
  else 0

/-- Inverse of the two-character JSON escapes. -/
def unescCode (c : Char) : Option Char :=
  if c = '\"' then some '\"'
  else if c = '\\' then some '\\'
  else if c = 'b' then some (Char.ofNat 8)
  else if c = 'f' then some (Char.ofNat 12)
  else if c = 'n' then some '\n'
  else if c = 'r' then some (Char.ofNat 13)
  else if c = 't' then some '\t'
  else none

/-- Decode a JSON string body up to its closing quote, returning the decoded
characters and the rest of the input. -/
def unescape : List Char → Option (List Char × List Char)
  | [] => none
  | c :: rest =>
    if c = '\"' then some ([], rest)
    else if c = '\\' then
      match rest with
      | [] => none
      | d :: rest2 =>
        if d = 'u' then
          match rest2 with
          | h1 :: h2 :: h3 :: h4 :: rest3 =>
            match unescape rest3 with
            | some (cs, r) =>
              some (Char.ofNat ((((hexVal h1 * 16 + hexVal h2) * 16 + hexVal h3) * 16
                + hexVal h4)) :: cs, r)
            | none => none
          | _ => none
        else
          match unescCode d, unescape rest2 with
          | some c2, some (cs, r) => some (c2 :: cs, r)
          | _, _ => none
    else
      match unescape rest with
      | some (cs, r) => some (c :: cs, r)
      | none => none

/-- Is the character a decimal digit (by code point)? -/
def isDigitCh (c : Char) : Bool := 48 ≤ c.toNat && c.toNat ≤ 57

/-- Greedily consume decimal digits, accumulating their value. -/
def digitsAux : Nat → List Char → Nat × List Char
  | acc, [] => (acc, [])
  | acc, c :: rest =>
    if isDigitCh c then digitsAux (acc * 10 + (c.toNat - 48)) rest else (acc, c :: rest)

/-- Is the head of the input a decimal digit? -/
def digitHead : List Char → Bool
  | [] => false
  | c :: _ => isDigitCh c

/-- Decode the literal `null` continuation. -/
def decNull : List Char → Option (JVal × List Char)
  | 'u' :: 'l' :: 'l' :: r => some (.undef, r)
  | _ => none

/-- Expect a comma. -/
def expectComma : List Char → Option (List Char)
  | ',' :: r => some r
  | _ => none

/-- Expect a closing bracket. -/
def expectClose : List Char → Option (List Char)
  | ']' :: r => some r
  | _ => none

/-- Decode one scalar value. -/
def decVal : List Char → Option (JVal × List Char)
  | [] => none
  | c :: rest =>
    if c = '\"' then
      (unescape rest).map (fun pr => (.str (String.mk pr.1), pr.2))
    else if c = 'n' then decNull rest
    else if c = '-' then
      if digitHead rest then
        some (.num (-((digitsAux 0 rest).1 : Int)), (digitsAux 0 rest).2)
      else none
    else if isDigitCh c then
      some (.num ((digitsAux 0 (c :: rest)).1 : Int), (digitsAux 0 (c :: rest)).2)
    else none

/-- Decode one `[name, value]` entry. -/
def decPair : List Char → Option ((String × JVal) × List Char)
  | '[' :: '\"' :: rest =>
    (unescape rest).bind (fun pr =>
      (expectComma pr.2).bind (fun r2 =>
        (decVal r2).bind (fun vr =>
          (expectClose vr.2).map (fun r4 => ((String.mk pr.1, vr.1), r4)))))
  | _ => none

/-- Decode a nonempty comma-separated run of entries terminated by `]`. -/
def decItems : Nat → List Char → Option (List (String × JVal) × List Char)
  | 0, _ => none
  | fuel + 1, cs =>
    (decPair cs).bind (fun pr =>
      match expectComma pr.2 with
      | some r2 => (decItems fuel r2).map (fun qr => (pr.1 :: qr.1, qr.2))
      | none => (expectClose pr.2).map (fun r2 => ([pr.1], r2)))

/-- Decode a full entry array. -/
def decList (cs : List Char) : Option (List (String × JVal) × List Char) :=
  match cs with
  | '[' :: ']' :: rest => some ([], rest)
  | '[' :: rest => decItems (rest.length + 1) rest
  | _ => none

/-! ### Decode-encode roundtrip -/

theorem toNat_ofNat_small {n : Nat} (h : n < 55296) : (Char.ofNat n).toNat = n := by
  have hv : n.isValidChar := Or.inl h
  rw [Char.ofNat, dif_pos hv]
  rfl

theorem hexVal_hexDigitChar : ∀ m, m < 16 → hexVal (hexDigitChar m) = m := by decide

theorem unescape_quote (rest : List Char) : unescape ('\"' :: rest) = some ([], rest) := by
  rw [unescape.eq_def]
  simp

theorem unescape_u (h1 h2 h3 h4 : Char) (tail l rest : List Char)
    (htail : unescape tail = some (l, rest)) :
    unescape ('\\' :: 'u' :: h1 :: h2 :: h3 :: h4 :: tail) =
      some (Char.ofNat ((((hexVal h1 * 16 + hexVal h2) * 16 + hexVal h3) * 16
        + hexVal h4)) :: l, rest) := by
  rw [unescape.eq_def]
  simp [htail]

theorem unescape_code (d c2 : Char) (tail l rest : List Char) (hdu : d ≠ 'u')
    (hc : unescCode d = some c2) (htail : unescape tail = some (l, rest)) :
    unescape ('\\' :: d :: tail) = some (c2 :: l, rest) := by
  rw [unescape.eq_def]
  simp [hdu, hc, htail]

theorem unescape_plain (c : Char) (tail l rest : List Char) (h1 : c ≠ '\"')
    (h2 : c ≠ '\\') (htail : unescape tail = some (l, rest)) :
    unescape (c :: tail) = some (c :: l, rest) := by
  rw [unescape.eq_def]
  simp [h1, h2, htail]

theorem unescape_escape (l rest : List Char) :
    unescape (escape l ++ '\"' :: rest) = some (l, rest) := by
  induction l with
  | nil => simpa [escape] using unescape_quote rest
  | cons c cs ih =>
    have hesc : escape (c :: cs) = escChar c ++ escape cs := by simp [escape]
    rw [hesc, List.append_assoc]
    by_cases e1 : c = '\"'
    · subst e1
      rw [show escChar '\"' = ['\\', '\"'] from by decide]
      exact unescape_code _ _ _ _ _ (by decide) (by decide) ih
    · by_cases e2 : c = '\\'
      · subst e2
        rw [show escChar '\\' = ['\\', '\\'] from by decide]
        exact unescape_code _ _ _ _ _ (by decide) (by decide) ih
      · by_cases e3 : c = Char.ofNat 8
        · subst e3
          rw [show escChar (Char.ofNat 8) = ['\\', 'b'] from by decide]
          exact unescape_code _ _ _ _ _ (by decide) (by decide) ih
        · by_cases e4 : c = Char.ofNat 12
          · subst e4
            rw [show escChar (Char.ofNat 12) = ['\\', 'f'] from by decide]
            exact unescape_code _ _ _ _ _ (by decide) (by decide) ih
          · by_cases e5 : c = '\n'
            · subst e5
              rw [show escChar '\n' = ['\\', 'n'] from by decide]
              exact unescape_code _ _ _ _ _ (by decide) (by decide) ih
            · by_cases e6 : c = Char.ofNat 13
              · subst e6
                rw [show escChar (Char.ofNat 13) = ['\\', 'r'] from by decide]
                exact unescape_code _ _ _ _ _ (by decide) (by decide) ih
              · by_cases e7 : c = '\t'
                · subst e7
                  rw [show escChar '\t' = ['\\', 't'] from by decide]
                  exact unescape_code _ _ _ _ _ (by decide) (by decide) ih
                · by_cases e8 : c.toNat < 32
                  · have he : escChar c = ['\\', 'u', '0', '0',
                        hexDigitChar (c.toNat / 16), hexDigitChar (c.toNat % 16)] := by
                      rw [escChar, if_neg e1, if_neg e2, if_neg e3, if_neg e4, if_neg e5,
                        if_neg e6, if_neg e7, if_pos e8]
                    rw [he]
                    simp only [List.cons_append, List.nil_append]
                    rw [unescape_u _ _ _ _ _ _ _ ih]
                    have hv0 : hexVal '0' = 0 := by decide
                    have hv1 : hexVal (hexDigitChar (c.toNat / 16)) = c.toNat / 16 :=
                      hexVal_hexDigitChar _ (by omega)
                    have hv2 : hexVal (hexDigitChar (c.toNat % 16)) = c.toNat % 16 :=
                      hexVal_hexDigitChar _ (by omega)
                    rw [hv0, hv1, hv2]
                    have : ((0 * 16 + 0) * 16 + c.toNat / 16) * 16 + c.toNat % 16
                        = c.toNat := by omega
                    rw [this, Char.ofNat_toNat]
                  · have he : escChar c = [c] := by
                      rw [escChar, if_neg e1, if_neg e2, if_neg e3, if_neg e4, if_neg e5,
                        if_neg e6, if_neg e7, if_neg e8]
                    rw [he]
                    exact unescape_plain _ _ _ _ e1 e2 ih

theorem digitsAux_stop (acc : Nat) (rest : List Char) (h : digitHead rest = false) :
    digitsAux acc rest = (acc, rest) := by
  cases rest with
  | nil => rfl
  | cons c t =>
    simp only [digitHead] at h
    simp [digitsAux, h]

theorem digitsAux_natDigits (n : Nat) : ∀ acc rest,
    digitsAux acc (natDigits n ++ rest) =
      digitsAux (acc * 10 ^ (natDigits n).length + n) rest := by
  induction n using Nat.strong_induction_on with
  | _ n ih =>
    intro acc rest
    by_cases h : n < 10
    · rw [natDigits, dif_pos h]
      simp only [List.cons_append, List.nil_append, List.length_singleton]
      rw [digitsAux]
      have hd : isDigitCh (Char.ofNat (48 + n)) = true := by
        simp [isDigitCh, toNat_ofNat_small (show 48 + n < 55296 by omega)]
        omega
      rw [if_pos hd, toNat_ofNat_small (show 48 + n < 55296 by omega)]
      have : acc * 10 + (48 + n - 48) = acc * 10 ^ 1 + n := by omega
      rw [this]
    · rw [natDigits, dif_neg h]
      rw [List.append_assoc, ih (n / 10) (Nat.div_lt_self (by omega) (by omega))]
      simp only [List.cons_append, List.nil_append]
      rw [digitsAux]
      have hd : isDigitCh (Char.ofNat (48 + n % 10)) = true := by
        simp [isDigitCh, toNat_ofNat_small (show 48 + n % 10 < 55296 by omega)]
        omega
      rw [if_pos hd, toNat_ofNat_small (show 48 + n % 10 < 55296 by omega)]
      have hlen : (natDigits (n / 10) ++ [Char.ofNat (48 + n % 10)]).length
          = (natDigits (n / 10)).length + 1 := by simp
      rw [hlen, pow_succ]
      congr 1
      have hmod : 48 + n % 10 - 48 = n % 10 := by omega
      rw [hmod]
      calc (acc * 10 ^ (natDigits (n / 10)).length + n / 10) * 10 + n % 10
          = acc * (10 ^ (natDigits (n / 10)).length * 10) + (10 * (n / 10) + n % 10) := by
            ring
        _ = acc * (10 ^ (natDigits (n / 10)).length * 10) + n := by
            rw [Nat.div_add_mod]

theorem natDigits_head (n : Nat) : ∃ d t, natDigits n = d :: t ∧ isDigitCh d = true := by
  induction n using Nat.strong_induction_on with
  | _ n ih =>
    by_cases h : n < 10
    · refine ⟨Char.ofNat (48 + n), [], by rw [natDigits, dif_pos h], ?_⟩
      simp [isDigitCh, toNat_ofNat_small (show 48 + n < 55296 by omega)]
      omega
    · obtain ⟨d, t, hdt, hd⟩ := ih (n / 10) (Nat.div_lt_self (by omega) (by omega))
      exact ⟨d, t ++ [Char.ofNat (48 + n % 10)], by rw [natDigits, dif_neg h, hdt]; rfl, hd⟩

theorem mk_data (s : String) : String.mk s.data = s := by cases s; rfl

theorem decVal_encVal (v : JVal) (rest : List Char) (hrest : digitHead rest = false) :
    decVal (encVal v ++ rest) = some (v, rest) := by
  cases v with
  | str s =>
    show decVal ('\"' :: (escape s.data ++ ['\"']) ++ rest) = _
    rw [List.cons_append, List.append_assoc]
    simp only [List.cons_append, List.nil_append]
    rw [decVal.eq_def]
    simp [unescape_escape, mk_data]
  | num n =>
    have hda : digitsAux 0 (natDigits n.natAbs ++ rest) = (n.natAbs, rest) := by
      rw [digitsAux_natDigits, digitsAux_stop _ _ hrest]
      simp
    by_cases hn : n < 0
    · show decVal (encVal (.num n) ++ rest) = _
      rw [encVal, if_pos hn]
      simp only [List.cons_append]
      have hh : digitHead (natDigits n.natAbs ++ rest) = true := by
        obtain ⟨d, t, hdt, hd⟩ := natDigits_head n.natAbs
        rw [hdt]; simpa [digitHead] using hd
      have hstep : decVal ('-' :: (natDigits n.natAbs ++ rest))
          = some (.num (-((digitsAux 0 (natDigits n.natAbs ++ rest)).1 : Int)),
              (digitsAux 0 (natDigits n.natAbs ++ rest)).2) := by
        simp [decVal, hh]
      rw [hstep, hda]
      simp only [Option.some.injEq, Prod.mk.injEq]
      refine ⟨by congr 1; omega, trivial⟩
    · show decVal (encVal (.num n) ++ rest) = _
      rw [encVal, if_neg hn]
      obtain ⟨d, t, hdt, hd⟩ := natDigits_head n.natAbs
      have hd48 : 48 ≤ d.toNat ∧ d.toNat ≤ 57 := by
        simpa [isDigitCh, Bool.and_eq_true, decide_eq_true_iff] using hd
      have hback : d :: (t ++ rest) = natDigits n.natAbs ++ rest := by
        rw [hdt]; rfl
      have hstep : decVal (d :: (t ++ rest))
          = some (.num (((digitsAux 0 (d :: (t ++ rest))).1 : Int)),
              (digitsAux 0 (d :: (t ++ rest))).2) := by
        rw [decVal.eq_def]
        simp only
        rw [if_neg (by intro hc; rw [hc] at hd48; revert hd48; decide),
          if_neg (by intro hc; rw [hc] at hd48; revert hd48; decide),
          if_neg (by intro hc; rw [hc] at hd48; revert hd48; decide),
          if_pos hd]
      rw [hdt, List.cons_append, hstep, hback, hda]
      simp only [Option.some.injEq, Prod.mk.injEq]
      refine ⟨by congr 1; omega, trivial⟩
  | undef =>
    show decVal ('n' :: 'u' :: 'l' :: 'l' :: rest) = _
    rw [decVal.eq_def]
    simp [decNull]

theorem decPair_encPair (p : String × JVal) (rest : List Char) :
    decPair (encPair p ++ rest) = some (p, rest) := by
  obtain ⟨k, v⟩ := p
  show decPair ('[' :: (('\"' :: (escape k.data ++ ['\"'])) ++ (',' :: (encVal v ++ [']'])))
      ++ rest) = _
  simp only [List.cons_append, List.append_assoc, List.nil_append]
  rw [decPair.eq_def]
  simp only [unescape_escape, Option.some_bind, expectComma, Option.some_bind]
  rw [decVal_encVal v _ (by simp [digitHead, isDigitCh])]
  simp [expectClose, mk_data]

theorem decItems_join : ∀ ps : List (String × JVal), ∀ fuel rest, ps ≠ [] →
    ps.length ≤ fuel →
    decItems fuel (joinComma (ps.map encPair) ++ ']' :: rest) = some (ps, rest) := by
  intro ps
  induction ps with
  | nil => intro fuel rest h; exact absurd rfl h
  | cons p ps ih =>
    intro fuel rest _ hlen
    cases fuel with
    | zero => simp at hlen
    | succ f =>
      cases ps with
      | nil =>
        show decItems (f + 1) (encPair p ++ ']' :: rest) = _
        rw [decItems, decPair_encPair]
        simp [expectComma, expectClose]
      | cons q qs =>
        show decItems (f + 1)
          ((encPair p ++ (',' :: joinComma ((q :: qs).map encPair))) ++ ']' :: rest) = _
        rw [List.append_assoc]
        rw [decItems, decPair_encPair]
        simp only [List.cons_append, Option.some_bind, expectComma]
        rw [ih f rest (by simp) (by simpa using hlen)]
        rfl

theorem encPair_length_pos (p : String × JVal) : 1 ≤ (encPair p).length := by
  obtain ⟨k, v⟩ := p
  simp [encPair]

theorem joinComma_length (ps : List (String × JVal)) :
    ps.length ≤ (joinComma (ps.map encPair)).length := by
  induction ps with
  | nil => simp [joinComma]
  | cons p ps ih =>
    cases ps with
    | nil => simpa [joinComma] using encPair_length_pos p
    | cons q qs =>
      show (p :: q :: qs).length ≤ (encPair p ++ (',' :: joinComma ((q :: qs).map encPair))).length
      have := encPair_length_pos p
      simp only [List.length_cons, List.length_append] at *
      omega

theorem decList_encList (l : List (String × JVal)) (rest : List Char) :
    decList (encList l ++ rest) = some (l, rest) := by
  cases l with
  | nil =>
    show decList ('[' :: ']' :: rest) = _
    rfl
  | cons p ps =>
    show decList ('[' :: ((joinComma ((p :: ps).map encPair) ++ [']']) ++ rest)) = _
    rw [List.append_assoc]
    simp only [List.cons_append, List.nil_append]
    have hjoin : ∃ t, joinComma ((p :: ps).map encPair) = '[' :: t := by
      obtain ⟨k, v⟩ := p
      cases ps with
      | nil => exact ⟨_, rfl⟩
      | cons q qs => exact ⟨_, rfl⟩
    obtain ⟨t, ht⟩ := hjoin
    rw [ht]
    simp only [List.cons_append]
    have hstep : decList ('[' :: '[' :: (t ++ ']' :: rest))
        = decItems (('[' :: (t ++ ']' :: rest)).length + 1) ('[' :: (t ++ ']' :: rest)) := by
      simp [decList]
    rw [hstep]
    have hfuel : (p :: ps).length ≤ ('[' :: (t ++ ']' :: rest)).length + 1 := by
      have h1 := joinComma_length (p :: ps)
      rw [ht] at h1
      simp only [List.length_cons, List.length_append] at *
      omega
    have hmain := decItems_join (p :: ps) (('[' :: (t ++ ']' :: rest)).length + 1) rest
      (by simp) hfuel
    rw [ht] at hmain
    simpa using hmain

theorem encList_inj (l1 l2 : List (String × JVal)) (h : encList l1 = encList l2) :
    l1 = l2 := by
  have h1 := decList_encList l1 []
  rw [h, decList_encList l2 []] at h1
  have hp := Option.some.inj h1
  exact (congrArg Prod.fst hp).symm

/-! ### The fingerprint function: canonical form and injectivity -/

/-- Strict ordering of entries: name strictly below. -/
def entryLt (p q : String × JVal) : Prop := entryLe p q ∧ p.1 ≠ q.1

theorem string_ext {a b : String} (h : a.data = b.data) : a = b := by
  have := congrArg String.mk h
  rwa [mk_data, mk_data] at this

instance : IsAntisymm (String × JVal) entryLt :=
  ⟨fun p q h1 h2 =>
    absurd (string_ext (charListLe_antisymm p.1.data q.1.data h1.1 h2.1)) h1.2⟩

theorem pairwise_entryLt {l : List (String × JVal)} (hs : List.Pairwise entryLe l)
    (hnd : (l.map Prod.fst).Nodup) : List.Pairwise entryLt l := by
  have hne : List.Pairwise (fun p q : String × JVal => p.1 ≠ q.1) l := by
    rw [List.Nodup, List.pairwise_map] at hnd
    exact hnd
  exact hs.and hne

theorem sortEntries_eq_of_perm (l1 l2 : List (String × JVal))
    (hp : l1.Perm l2) (hnd : (l1.map Prod.fst).Nodup) :
    sortEntries l1 = sortEntries l2 := by
  have hp1 : (sortEntries l1).Perm l1 := List.perm_insertionSort _ _
  have hp2 : (sortEntries l2).Perm l2 := List.perm_insertionSort _ _
  have hperm : (sortEntries l1).Perm (sortEntries l2) := hp1.trans (hp.trans hp2.symm)
  have hnd1 : ((sortEntries l1).map Prod.fst).Nodup := ((hp1.map Prod.fst).nodup_iff).mpr hnd
  have hnd2 : ((sortEntries l2).map Prod.fst).Nodup :=
    ((hp2.map Prod.fst).nodup_iff).mpr (((hp.map Prod.fst).nodup_iff).mp hnd)
  have hs1 : List.Pairwise entryLt (sortEntries l1) :=
    pairwise_entryLt (List.sorted_insertionSort _ _) hnd1
  have hs2 : List.Pairwise entryLt (sortEntries l2) :=
    pairwise_entryLt (List.sorted_insertionSort _ _) hnd2
  exact List.eq_of_perm_of_sorted hperm hs1 hs2

theorem getKey_eq_of_perm (r1 r2 : Request)
    (hp : (omitPriority r1).Perm (omitPriority r2))
    (hnd : ((omitPriority r1).map Prod.fst).Nodup) :
    getKey r1 = getKey r2 := by
  unfold getKey
  rw [sortEntries_eq_of_perm _ _ hp hnd]

/-- Association-list lookup; the model of JavaScript property access `obj[k]`. -/
def alookup {α : Type} (k : String) : List (String × α) → Option α
  | [] => none
  | p :: rest => if p.1 = k then some p.2 else alookup k rest

theorem alookup_eq_some_iff {α : Type} (k : String) (v : α) (l : List (String × α))
    (hnd : (l.map Prod.fst).Nodup) : alookup k l = some v ↔ (k, v) ∈ l := by
  induction l with
  | nil => simp [alookup]
  | cons p rest ih =>
    simp only [List.map_cons, List.nodup_cons] at hnd
    rw [alookup]
    by_cases hk : p.1 = k
    · rw [if_pos hk]
      simp only [List.mem_cons, Option.some.injEq]
      constructor
      · intro hv
        left
        rw [← hk, ← hv]
      · rintro (h | h)
        · rw [← h]
        · exfalso
          apply hnd.1
          rw [hk]
          exact List.mem_map_of_mem Prod.fst h
    · rw [if_neg hk, ih hnd.2]
      simp only [List.mem_cons]
      constructor
      · exact Or.inr
      · rintro (h | h)
        · exact absurd (congrArg Prod.fst h).symm hk
        · exact h

theorem alookup_eq_none_iff {α : Type} (k : String) (l : List (String × α)) :
    alookup k l = none ↔ k ∉ l.map Prod.fst := by
  induction l with
  | nil => simp [alookup]
  | cons p rest ih =>
    by_cases hk : p.1 = k
    · simp [alookup, hk]
    · simp [alookup, hk, ih, Ne.symm hk]

theorem alookup_perm {α : Type} (k : String) (l1 l2 : List (String × α))
    (hnd : (l1.map Prod.fst).Nodup) (hp : l1.Perm l2) :
    alookup k l1 = alookup k l2 := by
  have hnd2 : (l2.map Prod.fst).Nodup := ((hp.map Prod.fst).nodup_iff).mp hnd
  cases hv : alookup k l1 with
  | none =>
    rw [alookup_eq_none_iff] at hv
    have : k ∉ l2.map Prod.fst := fun hmem => hv ((hp.map Prod.fst).mem_iff.mpr hmem)
    rw [eq_comm, alookup_eq_none_iff]
    exact this
  | some v =>
    rw [alookup_eq_some_iff _ _ _ hnd] at hv
    rw [eq_comm, alookup_eq_some_iff _ _ _ hnd2]
    exact hp.mem_iff.mp hv

theorem alookup_omitPriority (k : String) (r : Request) (hk : k ≠ "priority") :
    alookup k (omitPriority r) = alookup k r := by
  induction r with
  | nil => rfl
  | cons p rest ih =>
    by_cases hp : p.1 = "priority"
    · have hcond : (p.1 != "priority") = false := by simp [hp]
      have h1 : omitPriority (p :: rest) = omitPriority rest := by
        simp [omitPriority, List.filter_cons, hcond]
      rw [h1, ih, alookup, if_neg (fun h : p.1 = k => hk (h ▸ hp))]
    · have hcond : (p.1 != "priority") = true := by simp [hp]
      have h1 : omitPriority (p :: rest) = p :: omitPriority rest := by
        simp [omitPriority, List.filter_cons, hcond]
      rw [h1]
      by_cases hk2 : p.1 = k
      · rw [alookup, alookup, if_pos hk2, if_pos hk2]
      · rw [alookup, alookup, if_neg hk2, if_neg hk2, ih]

theorem omitPriority_nodup {r : Request} (hnd : (r.map Prod.fst).Nodup) :
    ((omitPriority r).map Prod.fst).Nodup :=
  ((List.filter_sublist r).map Prod.fst).nodup hnd

/-- C5: the fingerprint is invariant to field insertion order and to the
presence or value of the `priority` field (left conjunct: any two Requests
whose non-priority field multisets agree — in particular reorderings of one
another, with or without `priority` — share a fingerprint), and any change
to a non-priority field changes the fingerprint (right conjunct). -/
theorem getKey_insertion_order_and_priority_invariant_and_injective
    (r1 r2 : Request)
    (hnd1 : (r1.map Prod.fst).Nodup) (hnd2 : (r2.map Prod.fst).Nodup) :
    ((omitPriority r1).Perm (omitPriority r2) → getKey r1 = getKey r2) ∧
    ((∃ k, k ≠ "priority" ∧ alookup k r1 ≠ alookup k r2) → getKey r1 ≠ getKey r2) := by
  constructor
  · intro hp
    exact getKey_eq_of_perm r1 r2 hp (omitPriority_nodup hnd1)
  · rintro ⟨k, hk, hne⟩ heq
    apply hne
    have henc : encList (sortEntries (omitPriority r1))
        = encList (sortEntries (omitPriority r2)) := by
      have := congrArg String.data heq
      simpa [getKey] using this
    have hsort := encList_inj _ _ henc
    have ha : (sortEntries (omitPriority r1)).Perm (omitPriority r1) :=
      List.perm_insertionSort entryLe (omitPriority r1)
    have hb : (sortEntries (omitPriority r2)).Perm (omitPriority r2) :=
      List.perm_insertionSort entryLe (omitPriority r2)
    rw [hsort] at ha
    have hperm : (omitPriority r1).Perm (omitPriority r2) := ha.symm.trans hb
    have h1 := alookup_perm k _ _ (omitPriority_nodup hnd1) hperm
    rw [alookup_omitPriority k r1 hk, alookup_omitPriority k r2 hk] at h1
    exact h1

/-- Witness for C5 at concrete requests: reordering plus a `priority` field
preserves the fingerprint; changing a non-priority value changes it. -/
theorem getKey_invariance_witness :
    getKey [("b", JVal.num 1), ("a", JVal.str "x")]
      = getKey [("a", JVal.str "x"), ("b", JVal.num 1), ("priority", JVal.num 5)] ∧
    getKey [("a", JVal.num 1)] ≠ getKey [("a", JVal.num 2)] :=
  ⟨(getKey_insertion_order_and_priority_invariant_and_injective _ _
      (by decide) (by decide)).1 (by decide),
   (getKey_insertion_order_and_priority_invariant_and_injective _ _
      (by decide) (by decide)).2 ⟨"a", by decide, by decide⟩⟩

/-! ### The cache engine state machine

One `createUseAsync(fetchData)` instance, for an arbitrary result type
`Data`. Each synchronous block of the source is one atomic transition:
public calls (`read`, `preload`, `invalidate`, `invalidateAll`,
`on`/`off`), the start of a queued task body (up to `await fetchData`),
and the settlement continuation after the `await`. The result of
`fetchData` is supplied by the settlement event, since the fetch function
is an arbitrary promise-returning argument. -/

/-- JavaScript `Error` values flowing through the library: either the
distinguished `UseAsyncError` wrapper created at settlement, or any other
error. -/
inductive ErrVal where
  | useAsyncError (inner : String)
  | other (msg : String)
deriving DecidableEq

/-- Does `error instanceof UseAsyncError` hold? -/
def ErrVal.isUseAsyncErr : ErrVal → Bool
  | .useAsyncError _ => true
  | .other _ => false

/-- Lifecycle of one queued task body: not yet run, body running past its
`await`, or completed (either settled or skipped because it was aborted). -/
inductive APhase where
  | queued
  | running
  | finished
deriving DecidableEq

/-- One `FetchAttempt`: the task closed over `aborted`/`started` plus the
`abort`/`meta` fields attached to the queued promise. `key`/`args` are the
closure captures of `startLoading`. -/
structure Attempt where
  key : String
  args : Request
  started : Bool
  aborted : Bool
  phase : APhase
deriving DecidableEq

/-- `status` together with the status-dependent `value` of a cache entry. -/
inductive EntryVal (Data : Type) where
  | pending (attempt : Nat)
  | resolved (value : Data)
  | rejected (error : ErrVal)
deriving DecidableEq

def EntryVal.isPending {Data : Type} : EntryVal Data → Bool
  | .pending _ => true
  | _ => false

def EntryVal.isRejected {Data : Type} : EntryVal Data → Bool
  | .rejected _ => true
  | _ => false

/-- One `CacheStatus` record of the source. `producer` is ghost
instrumentation (not present in the source): it records the attempt whose
settlement produced the current `state`, and never influences behaviour. -/
structure CacheEntry (Data : Type) where
  state : EntryVal Data
  next : Option Nat
  args : Request
  producer : Option Nat
deriving DecidableEq

/-- The whole engine state: the `cache` object, every attempt ever queued
(indexed by creation order), the emitter's listener counts, and the log of
`emitter.emit` calls (channel names, in order). -/
structure SysState (Data : Type) where
  cache : List (String × CacheEntry Data)
  attempts : List Attempt
  subs : String → Nat
  log : List String

/-- JavaScript object property assignment `obj[k] = v`. -/
def aset {α : Type} (k : String) (v : α) : List (String × α) → List (String × α)
  | [] => [(k, v)]
  | p :: rest => if p.1 = k then (k, v) :: rest else p :: aset k v rest

/-- JavaScript `delete obj[k]`. -/
def aerase {α : Type} (k : String) (l : List (String × α)) : List (String × α) :=
  l.filter (fun p => p.1 != k)

/-- `args.priority || 0` (a present numeric priority of `0` and an absent or
undefined one coincide, exactly as `||` makes them). -/
def reqPriority (r : Request) : Int :=
  match alookup "priority" r with
  | some (.num n) => n
  | _ => 0

/-- `abort()` of the abortable promise:
`if (!started) aborted = true; return aborted`. -/
def abortTry (l : List Attempt) (i : Nat) : Bool × List Attempt :=
  match l[i]? with
  | none => (false, l)
  | some a =>
    if a.started then (a.aborted, l)
    else (true, l.set i { a with aborted := true })

/-- The `Status.Pending` preemption branch of `startLoading` (lines 84-89):

`else if (existingCache.status === Status.Pending && existingCache.value.abort())
  delete cache[key]`. -/
def phase1pending {Data : Type} (s : SysState Data) (key : String) (e : CacheEntry Data) :
    SysState Data :=
  match e.state with
  | .pending i =>
    let r := abortTry s.attempts i
    if r.1 then { s with attempts := r.2, cache := aerase key s.cache }
    else { s with attempts := r.2 }
  | _ => s

/-- The preemption prologue of `startLoading` (lines 77-90): if the incoming
request has strictly higher priority than the entry's, first try to abort a
refresh (`next`) attempt when this call is itself a refetch, else try to
abort a pending entry's attempt and delete the entry. -/
def phase1 {Data : Type} (s : SysState Data) (args : Request) (isRefetch : Bool) :
    SysState Data :=
  let key := getKey args
  match alookup key s.cache with
  | none => s
  | some e =>
    if reqPriority e.args < reqPriority args then
      match isRefetch, e.next with
      | true, some nid =>
        let r := abortTry s.attempts nid
        if r.1 then
          { s with attempts := r.2, cache := aset key { e with next := none } s.cache }
        else phase1pending { s with attempts := r.2 } key e
      | _, _ => phase1pending s key e
    else s

/-- The admission epilogue of `startLoading` (lines 92-135): re-read the
entry; if none exists, or this is a refetch of a settled entry, queue a new
`FetchAttempt` and store it (as the new Pending entry, or in `next` with
`args` updated to the incoming request). -/
def phase2 {Data : Type} (s : SysState Data) (args : Request) (isRefetch : Bool) :
    SysState Data :=
  let key := getKey args
  match alookup key s.cache with
  | none =>
    let i := s.attempts.length
    let att : Attempt :=
      { key := key, args := args, started := false, aborted := false, phase := .queued }
    let ent : CacheEntry Data :=
      { state := .pending i, next := none, args := args, producer := none }
    { s with attempts := s.attempts ++ [att], cache := aset key ent s.cache }
  | some e =>
    if isRefetch && !e.state.isPending then
      let i := s.attempts.length
      let att : Attempt :=
        { key := key, args := args, started := false, aborted := false, phase := .queued }
      { s with attempts := s.attempts ++ [att],
               cache := aset key { e with args := args, next := some i } s.cache }
    else s

/-- `startLoading(args, isRefetch)` (one whole synchronous call). -/
def startLoading {Data : Type} (s : SysState Data) (args : Request) (isRefetch : Bool) :
    SysState Data :=
  phase2 (phase1 s args isRefetch) args isRefetch

/-- The outcome a reader observes: a thrown pending promise (suspension), a
value, or a thrown error. `stuck` models the unreachable no-entry case after
`startLoading` (the `Unreachable` default arm of the source's `switch`). -/
inductive ReadResult (Data : Type) where
  | throwPending (attempt : Nat)
  | value (v : Data)
  | throwErr (e : ErrVal)
  | stuck
deriving DecidableEq

/-- The `switch (state.status)` of `read`/`preload`: Pending throws (or
awaits) the attempt handle, Resolved returns the value, Rejected throws the
stored error. -/
def resultOf {Data : Type} (st : EntryVal Data) : ReadResult Data :=
  match st with
  | .pending i => .throwPending i
  | .resolved v => .value v
  | .rejected er => .throwErr er

/-- `useAsync.read(args)` (lines 154-166). -/
def read {Data : Type} (s : SysState Data) (args : Request) :
    SysState Data × ReadResult Data :=
  let s2 := startLoading s args false
  match alookup (getKey args) s2.cache with
  | some e => (s2, resultOf e.state)
  | none => (s2, .stuck)

/-- The synchronous admission part of `useAsync.preload(args)` (lines
168-181): identical admission to `read`; a `throwPending` result means the
caller awaits the attempt (whose later progress is separate `start`/`settle`
events) and then recurses. -/
def preload {Data : Type} (s : SysState Data) (args : Request) :
    SysState Data × ReadResult Data :=
  let s2 := startLoading s args false
  match alookup (getKey args) s2.cache with
  | some e => (s2, resultOf e.state)
  | none => (s2, .stuck)

/-- The delete branch of `invalidate`: `delete cache[key]; emitter.emit(key);
emitter.emit("any")`. -/
def deleteNotify {Data : Type} (s : SysState Data) (key : String) : SysState Data :=
  { s with cache := aerase key s.cache, log := s.log ++ [key, "any"] }

/-- `useAsync.invalidate(args)` (lines 183-197). -/
def invalidate {Data : Type} (s : SysState Data) (args : Request) : SysState Data :=
  let key := getKey args
  if 0 < s.subs key then
    match alookup key s.cache with
    | some e =>
      if !e.state.isPending && e.next.isNone then startLoading s args true
      else deleteNotify s key
    | none => deleteNotify s key
  else deleteNotify s key

/-- `useAsync.invalidateAll(onlyRejected)` (lines 199-205): iterate over a
snapshot of the entries, invalidating each matching one by its `args`. -/
def invalidateAll {Data : Type} (s : SysState Data) (onlyRejected : Bool) : SysState Data :=
  (s.cache.map (fun p => (p.2.args, p.2.state))).foldl
    (fun st pr => if !onlyRejected || pr.2.isRejected then invalidate st pr.1 else st) s

/-- The prefix of a queued task body, run when the scheduler starts it
(lines 101-103): `if (aborted) return; started = true;` followed by the call
`fetchData(args)`. An aborted attempt finishes without ever invoking the
fetch function; an unaborted one marks itself started (= the fetch function
is invoked) and is then suspended at the `await`. -/
def startAttempt {Data : Type} (s : SysState Data) (i : Nat) : SysState Data :=
  match s.attempts[i]? with
  | none => s
  | some a =>
    if a.phase = .queued then
      if a.aborted then { s with attempts := s.attempts.set i { a with phase := .finished } }
      else { s with attempts := s.attempts.set i { a with started := true, phase := .running } }
    else s

/-- Number of fetch-function invocations for a fingerprint: the attempts
whose bodies ran past the `aborted` check. -/
def fetchCalls {Data : Type} (s : SysState Data) (key : String) : Nat :=
  (s.attempts.filter (fun a => a.key == key && a.started)).length

/-- The settlement continuation of a task body (lines 105-117): on fulfilled
`fetchData`, resolve; on rejection, reject with `new UseAsyncError(err)`;
in both cases, if the entry was deleted (`if (!cache[key]) return`), do
nothing; otherwise also clear `next` and emit on the fingerprint channel and
on `"any"`. -/
def settleAttempt {Data : Type} (s : SysState Data) (i : Nat)
    (outcome : Except String Data) : SysState Data :=
  match s.attempts[i]? with
  | none => s
  | some a =>
    if a.phase = .running then
      let s1 : SysState Data :=
        { s with attempts := s.attempts.set i { a with phase := .finished } }
      match alookup a.key s1.cache with
      | none => s1
      | some e =>
        let e2 : CacheEntry Data :=
          match outcome with
          | .ok d => { e with state := .resolved d, next := none, producer := some i }
          | .error msg =>
            { e with state := .rejected (.useAsyncError msg), next := none, producer := some i }
        { s1 with cache := aset a.key e2 s1.cache, log := s1.log ++ [a.key, "any"] }
    else s

/-- One atomic step of the engine: a public call, a subscription change, or
a scheduler step of some queued attempt. -/
inductive Event (Data : Type) where
  | read (args : Request)
  | preload (args : Request)
  | invalidate (args : Request)
  | invalidateAll (onlyRejected : Bool)
  | subscribe (key : String)
  | unsubscribe (key : String)
  | start (i : Nat)
  | settle (i : Nat) (outcome : Except String Data)

def stepEv {Data : Type} (s : SysState Data) (e : Event Data) : SysState Data :=
  match e with
  | .read args => (read s args).1
  | .preload args => (preload s args).1
  | .invalidate args => invalidate s args
  | .invalidateAll b => invalidateAll s b
  | .subscribe key => { s with subs := fun k => if k = key then s.subs k + 1 else s.subs k }
  | .unsubscribe key => { s with subs := fun k => if k = key then s.subs k - 1 else s.subs k }
  | .start i => startAttempt s i
  | .settle i outcome => settleAttempt s i outcome

def runEvents {Data : Type} (s : SysState Data) (evs : List (Event Data)) : SysState Data :=
  evs.foldl stepEv s

/-- The state of a freshly created `useAsync`: empty cache, no attempts, no
listeners. -/
def initState (Data : Type) : SysState Data :=
  { cache := [], attempts := [], subs := fun _ => 0, log := [] }

/-- `CatchUseAsyncError.getDerivedStateFromError`: re-throws anything that is
not a `UseAsyncError` unchanged (`Except.error`), and captures a
`UseAsyncError` into the boundary's state (`Except.ok`). -/
def getDerivedStateFromError (e : ErrVal) : Except ErrVal ErrVal :=
  if e.isUseAsyncErr then .ok e else .error e

/-- Events allowed in a deduplication scenario: reads of one fingerprint,
interleaved with scheduler starts. -/
def readsAndStarts {Data : Type} (key : String) : Event Data → Prop
  | .read args => getKey args = key
  | .start _ => True
  | _ => False

/-- Invariant of a reads-and-starts trace for one fingerprint `key`: all
attempts are for `key`; aborted attempts never started; finished attempts
were aborted; running attempts have started; the entry, if present, is
Pending on an unaborted attempt and every other attempt is aborted; and no
entry means nothing was ever attempted. -/
structure C1Inv {Data : Type} (key : String) (s : SysState Data) : Prop where
  keys : ∀ (j : Nat) (a : Attempt), s.attempts[j]? = some a → a.key = key
  abns : ∀ (j : Nat) (a : Attempt), s.attempts[j]? = some a →
      a.aborted = true → a.started = false
  finab : ∀ (j : Nat) (a : Attempt), s.attempts[j]? = some a →
      a.phase = .finished → a.aborted = true
  runst : ∀ (j : Nat) (a : Attempt), s.attempts[j]? = some a →
      a.phase = .running → a.started = true
  entry : ∀ e, alookup key s.cache = some e → ∃ i a, e.state = .pending i ∧
      s.attempts[i]? = some a ∧ a.aborted = false ∧
      ∀ (j : Nat) (b : Attempt), s.attempts[j]? = some b → j ≠ i → b.aborted = true
  noentry : alookup key s.cache = none → s.attempts = []

/-! ### Basic lemmas about the table operations -/

theorem alookup_aset_self {α : Type} (k : String) (v : α) (l : List (String × α)) :
    alookup k (aset k v l) = some v := by
  induction l with
  | nil => simp [aset, alookup]
  | cons p rest ih =>
    by_cases h : p.1 = k
    · simp [aset, h, alookup]
    · simp [aset, h, alookup, ih]

theorem alookup_aset_ne {α : Type} {k k2 : String} (h : k2 ≠ k) (v : α)
    (l : List (String × α)) : alookup k2 (aset k v l) = alookup k2 l := by
  induction l with
  | nil =>
    show alookup k2 [(k, v)] = none
    rw [alookup, if_neg (fun hh : k = k2 => h hh.symm)]
    rfl
  | cons p rest ih =>
    by_cases hp : p.1 = k
    · rw [aset, if_pos hp, alookup, alookup, if_neg (fun hh : k = k2 => h hh.symm),
        if_neg (hp ▸ fun hh : p.1 = k2 => h (hp ▸ hh).symm)]
    · rw [aset, if_neg hp, alookup, alookup]
      by_cases hp2 : p.1 = k2
      · rw [if_pos hp2, if_pos hp2]
      · rw [if_neg hp2, if_neg hp2, ih]

theorem alookup_aerase_self {α : Type} (k : String) (l : List (String × α)) :
    alookup k (aerase k l) = none := by
  induction l with
  | nil => rfl
  | cons p rest ih =>
    by_cases h : p.1 = k
    · simpa [aerase, List.filter_cons, h] using ih
    · simp only [aerase, List.filter_cons] at ih ⊢
      simp only [show (p.1 != k) = true by simp [h], if_pos]
      rw [alookup, if_neg h]
      exact ih

theorem alookup_aerase_ne {α : Type} {k k2 : String} (h : k2 ≠ k)
    (l : List (String × α)) : alookup k2 (aerase k l) = alookup k2 l := by
  induction l with
  | nil => rfl
  | cons p rest ih =>
    by_cases hp : p.1 = k
    · simp only [aerase, List.filter_cons] at ih ⊢
      simp only [show (p.1 != k) = false by simp [hp]]
      rw [if_neg (by simp), alookup, if_neg (fun hh : p.1 = k2 => h (hh ▸ hp))]
      exact ih
    · simp only [aerase, List.filter_cons] at ih ⊢
      simp only [show (p.1 != k) = true by simp [hp], if_pos]
      rw [alookup, alookup]
      by_cases hp2 : p.1 = k2
      · rw [if_pos hp2, if_pos hp2]
      · rw [if_neg hp2, if_neg hp2, ih]

theorem aerase_of_absent {α : Type} {k : String} {l : List (String × α)}
    (h : alookup k l = none) : aerase k l = l := by
  rw [alookup_eq_none_iff] at h
  rw [aerase, List.filter_eq_self]
  intro p hp
  simp only [bne_iff_ne, ne_eq]
  exact fun hk => h (hk ▸ List.mem_map_of_mem Prod.fst hp)

/-! ### C4 and C10: the invalidate decision -/

/-- C4: `invalidate` refreshes in the background — keeping the entry, storing
the new attempt in `next` and the refresh Request in `args` — exactly when
the fingerprint has a subscriber, an entry exists, the entry is settled and
no `next` is in flight; in every other case it deletes the entry and
notifies the fingerprint channel and `"any"` (in particular with zero
subscribers nothing is fetched: the attempt list is untouched). -/
theorem invalidate_refresh_iff {Data : Type} (s : SysState Data) (args : Request)
    (key : String) (hkey : getKey args = key) :
    (∀ e, alookup key s.cache = some e →
      (0 < s.subs key ∧ e.state.isPending = false ∧ e.next = none →
        (invalidate s args).attempts.length = s.attempts.length + 1 ∧
        alookup key (invalidate s args).cache
          = some { e with args := args, next := some s.attempts.length } ∧
        (invalidate s args).log = s.log) ∧
      (¬ (0 < s.subs key ∧ e.state.isPending = false ∧ e.next = none) →
        alookup key (invalidate s args).cache = none ∧
        (invalidate s args).attempts = s.attempts ∧
        (invalidate s args).log = s.log ++ [key, "any"])) ∧
    (alookup key s.cache = none →
      (invalidate s args).cache = s.cache ∧
      (invalidate s args).attempts = s.attempts ∧
      (invalidate s args).log = s.log ++ [key, "any"]) := by
  subst hkey
  constructor
  · intro e he
    constructor
    · rintro ⟨hsubs, hpend, hnext⟩
      have hbranch : invalidate s args = startLoading s args true := by
        rw [invalidate]
        simp only [he, if_pos hsubs]
        rw [if_pos (by simp [hpend, hnext])]
      have hphase1 : phase1 s args true = s := by
        rw [phase1]
        simp only [he]
        by_cases hprio : reqPriority e.args < reqPriority args
        · rw [if_pos hprio, hnext]
          simp only [phase1pending]
          cases hst : e.state with
          | pending i =>
            rw [hst] at hpend
            simp [EntryVal.isPending] at hpend
          | resolved v => simp [hst]
          | rejected er => simp [hst]
        · rw [if_neg hprio]
      rw [hbranch, startLoading, hphase1, phase2]
      simp only [he, if_pos (show (true && !e.state.isPending) = true by simp [hpend])]
      refine ⟨by simp, ?_, trivial⟩
      simp only [alookup_aset_self]
    · intro hcond
      have hbranch : invalidate s args = deleteNotify s (getKey args) := by
        rw [invalidate]
        by_cases hsubs : 0 < s.subs (getKey args)
        · simp only [he, if_pos hsubs]
          rw [if_neg]
          intro hb
          simp only [Bool.and_eq_true, Bool.not_eq_true', Option.isNone_iff_eq_none] at hb
          exact hcond ⟨hsubs, hb.1, hb.2⟩
        · rw [if_neg hsubs]
      rw [hbranch, deleteNotify]
      exact ⟨alookup_aerase_self _ _, rfl, rfl⟩
  · intro he
    have hbranch : invalidate s args = deleteNotify s (getKey args) := by
      rw [invalidate]
      by_cases hsubs : 0 < s.subs (getKey args)
      · simp only [he, if_pos hsubs]
      · rw [if_neg hsubs]
    rw [hbranch, deleteNotify]
    exact ⟨aerase_of_absent he, rfl, rfl⟩

/-- Concrete fixtures used by the witnesses below. -/
def wreq : Request := [("a", JVal.str "x")]

def wreqB : Request := [("b", JVal.str "y")]

def wkey : String := getKey wreq

/-- A settled entry for `wreq` holding `42`. -/
def wEntry : CacheEntry Int := ⟨.resolved 42, none, wreq, none⟩

/-- A state whose only entry is `wEntry`, with one subscriber on `wkey`. -/
def wSubState : SysState Int :=
  { cache := [(wkey, wEntry)], attempts := [],
    subs := fun k => if k = wkey then 1 else 0, log := [] }

/-- Same state with no subscribers. -/
def wNoSubState : SysState Int :=
  { cache := [(wkey, wEntry)], attempts := [], subs := fun _ => 0, log := [] }

/-- A state holding only an entry for `wreqB`. -/
def wOtherState : SysState Int :=
  { cache := [(getKey wreqB, ⟨.resolved 7, none, wreqB, none⟩)], attempts := [],
    subs := fun _ => 0, log := [] }

/-- Witness for C4: a subscribed settled entry is refreshed in place; an
unsubscribed one is deleted with no new attempt. -/
theorem invalidate_refresh_iff_witness :
    (invalidate wSubState wreq).attempts.length = 1 ∧
    alookup wkey (invalidate wNoSubState wreq).cache = none := by
  constructor
  · exact ((invalidate_refresh_iff wSubState wreq wkey rfl).1 wEntry (by decide)).1
      ⟨by decide, by decide, by decide⟩ |>.1
  · exact ((invalidate_refresh_iff wNoSubState wreq wkey rfl).1 wEntry (by decide)).2
      (by intro h; exact absurd h.1 (by decide)) |>.1

/-- C10: `invalidate` on a fingerprint with no entry leaves the table
unchanged but still emits one notification on the fingerprint channel and
one on `"any"`. -/
theorem invalidate_missing_entry {Data : Type} (s : SysState Data) (args : Request)
    (habs : alookup (getKey args) s.cache = none) :
    (invalidate s args).cache = s.cache ∧
    (invalidate s args).attempts = s.attempts ∧
    (invalidate s args).log = s.log ++ [getKey args, "any"] := by
  have hbranch : invalidate s args = deleteNotify s (getKey args) := by
    rw [invalidate]
    by_cases hsubs : 0 < s.subs (getKey args)
    · simp only [habs, if_pos hsubs]
    · rw [if_neg hsubs]
  rw [hbranch, deleteNotify]
  exact ⟨aerase_of_absent habs, rfl, rfl⟩

/-- Witness for C10 at a concrete state with an unrelated entry. -/
theorem invalidate_missing_entry_witness :
    (invalidate wOtherState wreq).cache = wOtherState.cache ∧
    (invalidate wOtherState wreq).log = [wkey, "any"] := by
  have h := invalidate_missing_entry wOtherState wreq (by decide)
  exact ⟨h.1, h.2.2⟩

/-! ### C8: settlement against a deleted entry is a silent no-op -/

/-- C8: when an attempt settles after its entry was removed from the table
(the key is absent at settlement time), the cache table is not mutated and
no notification is emitted on the fingerprint channel nor on `"any"`. -/
theorem settle_on_deleted_entry {Data : Type} (s : SysState Data) (i : Nat) (a : Attempt)
    (ha : s.attempts[i]? = some a) (habs : alookup a.key s.cache = none)
    (outcome : Except String Data) :
    (settleAttempt s i outcome).cache = s.cache ∧
    (settleAttempt s i outcome).log = s.log ∧
    (settleAttempt s i outcome).subs = s.subs := by
  rw [settleAttempt]
  simp only [ha]
  by_cases hph : a.phase = .running
  · simp only [if_pos hph, habs]
    exact ⟨trivial, trivial, trivial⟩
  · simp only [if_neg hph]
    exact ⟨trivial, trivial, trivial⟩

/-! ### Shared admission lemmas -/

theorem phase1pending_of_settled {Data : Type} (s : SysState Data) (key : String)
    (e : CacheEntry Data) (hp : e.state.isPending = false) :
    phase1pending s key e = s := by
  rw [phase1pending]
  cases hst : e.state with
  | pending i =>
    rw [hst] at hp
    simp [EntryVal.isPending] at hp
  | resolved v => rfl
  | rejected er => rfl

/-- `startLoading`'s preemption prologue does nothing on a settled entry with
no in-flight refresh. -/
theorem phase1_of_settled {Data : Type} (s : SysState Data) (args : Request)
    (isRefetch : Bool) (e : CacheEntry Data)
    (he : alookup (getKey args) s.cache = some e)
    (hp : e.state.isPending = false) (hn : e.next = none) :
    phase1 s args isRefetch = s := by
  rw [phase1]
  simp only [he]
  by_cases hprio : reqPriority e.args < reqPriority args
  · rw [if_pos hprio, hn]
    cases isRefetch
    · exact phase1pending_of_settled s _ e hp
    · exact phase1pending_of_settled s _ e hp
  · rw [if_neg hprio]

/-- For a plain read the prologue also ignores any `next` attempt. -/
theorem phase1_read_of_settled {Data : Type} (s : SysState Data) (args : Request)
    (e : CacheEntry Data) (he : alookup (getKey args) s.cache = some e)
    (hp : e.state.isPending = false) :
    phase1 s args false = s := by
  rw [phase1]
  simp only [he]
  by_cases hprio : reqPriority e.args < reqPriority args
  · rw [if_pos hprio]
    cases hn2 : e.next
    · exact phase1pending_of_settled s _ e hp
    · exact phase1pending_of_settled s _ e hp
  · rw [if_neg hprio]

/-- A read that finds an entry submits nothing in the epilogue. -/
theorem phase2_of_read_hit {Data : Type} (s : SysState Data) (args : Request)
    (e : CacheEntry Data) (he : alookup (getKey args) s.cache = some e) :
    phase2 s args false = s := by
  rw [phase2]
  simp only [he]
  rw [if_neg (by simp)]

/-- The epilogue of a refetch of a settled entry queues a fresh attempt and
stores it in `next`, moving `args` to the refetch request. -/
theorem phase2_of_refetch_settled {Data : Type} (s : SysState Data) (args : Request)
    (e : CacheEntry Data) (he : alookup (getKey args) s.cache = some e)
    (hp : e.state.isPending = false) :
    phase2 s args true
      = { s with
          attempts := s.attempts ++ [⟨getKey args, args, false, false, .queued⟩],
          cache := aset (getKey args)
            { e with args := args, next := some s.attempts.length } s.cache } := by
  rw [phase2]
  simp only [he]
  rw [if_pos (by simp [hp])]

/-- The epilogue on a missing entry queues a fresh attempt and creates the
Pending entry. -/
theorem phase2_of_absent {Data : Type} (s : SysState Data) (args : Request)
    (isRefetch : Bool) (he : alookup (getKey args) s.cache = none) :
    phase2 s args isRefetch
      = { s with
          attempts := s.attempts ++ [⟨getKey args, args, false, false, .queued⟩],
          cache := aset (getKey args)
            ⟨.pending s.attempts.length, none, args, none⟩ s.cache } := by
  rw [phase2]
  simp only [he]

/-- Reading a fingerprint whose entry is settled changes nothing and
delivers the entry's value or error. -/
theorem read_of_settled {Data : Type} (s : SysState Data) (args : Request)
    (e : CacheEntry Data) (he : alookup (getKey args) s.cache = some e)
    (hp : e.state.isPending = false) :
    read s args = (s, resultOf e.state) := by
  have hsl : startLoading s args false = s := by
    rw [startLoading, phase1_read_of_settled s args e he hp]
    exact phase2_of_read_hit s args e he
  rw [read]
  simp only [hsl, he]

/-- Same for the admission part of `preload`. -/
theorem preload_of_settled {Data : Type} (s : SysState Data) (args : Request)
    (e : CacheEntry Data) (he : alookup (getKey args) s.cache = some e)
    (hp : e.state.isPending = false) :
    preload s args = (s, resultOf e.state) := by
  have hsl : startLoading s args false = s := by
    rw [startLoading, phase1_read_of_settled s args e he hp]
    exact phase2_of_read_hit s args e he
  rw [preload]
  simp only [hsl, he]

/-- The refresh path of `invalidate` (subscribed, settled, no `next`): the
entry is kept — its status and value untouched — while the fresh attempt is
stored in `next` and `args` becomes the refresh request. -/
theorem invalidate_refresh_eq {Data : Type} (s : SysState Data) (args : Request)
    (e : CacheEntry Data) (he : alookup (getKey args) s.cache = some e)
    (hsubs : 0 < s.subs (getKey args)) (hp : e.state.isPending = false)
    (hn : e.next = none) :
    invalidate s args
      = { s with
          attempts := s.attempts ++ [⟨getKey args, args, false, false, .queued⟩],
          cache := aset (getKey args)
            { e with args := args, next := some s.attempts.length } s.cache } := by
  have hbranch : invalidate s args = startLoading s args true := by
    rw [invalidate]
    simp only [he, if_pos hsubs]
    rw [if_pos (by simp [hp, hn])]
  rw [hbranch, startLoading, phase1_of_settled s args true e he hp hn]
  exact phase2_of_refetch_settled s args e he hp

/-- Settlement of a fulfilled fetch against a present entry. -/
theorem settleAttempt_hit_ok {Data : Type} (s : SysState Data) (i : Nat) (a : Attempt)
    (e : CacheEntry Data) (v : Data) (ha : s.attempts[i]? = some a)
    (hph : a.phase = .running) (he : alookup a.key s.cache = some e) :
    settleAttempt s i (.ok v)
      = { s with
          attempts := s.attempts.set i { a with phase := .finished },
          cache := aset a.key
            { e with state := .resolved v, next := none, producer := some i } s.cache,
          log := s.log ++ [a.key, "any"] } := by
  rw [settleAttempt]
  simp only [ha, if_pos hph, he]

/-- Settlement of a rejected fetch against a present entry. -/
theorem settleAttempt_hit_err {Data : Type} (s : SysState Data) (i : Nat) (a : Attempt)
    (e : CacheEntry Data) (msg : String) (ha : s.attempts[i]? = some a)
    (hph : a.phase = .running) (he : alookup a.key s.cache = some e) :
    settleAttempt s i (.error msg)
      = { s with
          attempts := s.attempts.set i { a with phase := .finished },
          cache := aset a.key
            { e with
              state := .rejected (.useAsyncError msg), next := none, producer := some i }
            s.cache,
          log := s.log ++ [a.key, "any"] } := by
  rw [settleAttempt]
  simp only [ha, if_pos hph, he]

/-! ### C9: error wrapping and the error boundary -/

/-- C9: a failing fetch is caught and stored as `Rejected` with the failure
wrapped in the distinguished `UseAsyncError` kind; a later `read` or
`preload` for the fingerprint re-raises the stored wrapped error; and the
error boundary catches exactly the `UseAsyncError` kind, re-raising
anything else unchanged. -/
theorem rejected_wrapping_rethrow_and_boundary {Data : Type} :
    (∀ (s : SysState Data) (i : Nat) (a : Attempt) (msg : String) (e : CacheEntry Data),
      s.attempts[i]? = some a → a.phase = .running → alookup a.key s.cache = some e →
      alookup a.key (settleAttempt s i (.error msg)).cache
        = some { e with state := .rejected (.useAsyncError msg), next := none, producer := some i }) ∧
    (∀ (s : SysState Data) (args : Request) (e : CacheEntry Data) (err : ErrVal),
      alookup (getKey args) s.cache = some e → e.state = .rejected err →
      (read s args).2 = .throwErr err ∧ (preload s args).2 = .throwErr err) ∧
    (∀ msg, getDerivedStateFromError (.useAsyncError msg) = .ok (.useAsyncError msg)) ∧
    (∀ err : ErrVal, err.isUseAsyncErr = false →
      getDerivedStateFromError err = .error err) := by
  refine ⟨?_, ?_, ?_, ?_⟩
  · intro s i a msg e ha hph he
    rw [settleAttempt_hit_err s i a e msg ha hph he]
    exact alookup_aset_self _ _ _
  · intro s args e err he hstate
    have hp : e.state.isPending = false := by
      rw [hstate]
      rfl
    rw [read_of_settled s args e he hp, preload_of_settled s args e he hp, hstate]
    exact ⟨rfl, rfl⟩
  · intro msg
    rfl
  · intro err herr
    rw [getDerivedStateFromError, herr]
    rfl

/-- A pending entry whose attempt is running, for the C9 witness. -/
def wRunPendingState : SysState Int :=
  { cache := [(wkey, ⟨.pending 0, none, wreq, none⟩)],
    attempts := [⟨wkey, wreq, true, false, .running⟩],
    subs := fun _ => 0, log := [] }

/-- A state whose entry for `wreq` is rejected. -/
def wRejState : SysState Int :=
  { cache := [(wkey, ⟨.rejected (.useAsyncError "boom"), none, wreq, some 0⟩)],
    attempts := [⟨wkey, wreq, true, false, .finished⟩],
    subs := fun _ => 0, log := [] }

/-- Witness for C9 at concrete inputs. -/
theorem rejected_wrapping_rethrow_and_boundary_witness :
    alookup wkey (settleAttempt wRunPendingState 0 (.error "boom")).cache
      = some ⟨.rejected (.useAsyncError "boom"), none, wreq, some 0⟩ ∧
    (read wRejState wreq).2 = .throwErr (.useAsyncError "boom") ∧
    getDerivedStateFromError (.other "plain") = .error (.other "plain") := by
  refine ⟨?_, ?_, ?_⟩
  · exact (@rejected_wrapping_rethrow_and_boundary Int).1 wRunPendingState 0
      ⟨wkey, wreq, true, false, .running⟩ "boom" ⟨.pending 0, none, wreq, none⟩
      rfl rfl (by decide)
  · exact ((@rejected_wrapping_rethrow_and_boundary Int).2.1 wRejState wreq
      ⟨.rejected (.useAsyncError "boom"), none, wreq, some 0⟩ (.useAsyncError "boom")
      (by decide) rfl).1
  · exact (@rejected_wrapping_rethrow_and_boundary Int).2.2.2 _ rfl

/-! ### C3: stale-while-revalidate -/

/-- C3: on a subscribed Resolved entry with no `next`, `invalidate` keeps the
pre-refresh value visible (any read of the fingerprint during the refresh
window returns it) while the refresh attempt sits in `next`; once the
refresh attempt settles with a new value, reads return the new value. -/
theorem stale_while_revalidate {Data : Type} (s : SysState Data) (args args2 : Request)
    (e : CacheEntry Data) (v : Data)
    (hkey2 : getKey args2 = getKey args)
    (he : alookup (getKey args) s.cache = some e)
    (hstate : e.state = .resolved v) (hnext : e.next = none)
    (hsubs : 0 < s.subs (getKey args)) :
    alookup (getKey args) (invalidate s args).cache
      = some { e with args := args, next := some s.attempts.length } ∧
    (read (invalidate s args) args2).2 = .value v ∧
    (∀ v2, (read (settleAttempt (startAttempt (invalidate s args) s.attempts.length)
        s.attempts.length (.ok v2)) args2).2 = .value v2) := by
  have hp : e.state.isPending = false := by
    rw [hstate]
    rfl
  have hrefresh := invalidate_refresh_eq s args e he hsubs hp hnext
  have he1 : alookup (getKey args) (invalidate s args).cache
      = some { e with args := args, next := some s.attempts.length } := by
    rw [hrefresh]
    exact alookup_aset_self _ _ _
  refine ⟨he1, ?_, ?_⟩
  · have he2 : alookup (getKey args2) (invalidate s args).cache
        = some { e with args := args, next := some s.attempts.length } := by
      rw [hkey2]
      exact he1
    rw [read_of_settled (invalidate s args) args2 _ he2 hp]
    rw [hstate]
    rfl
  · intro v2
    have hatt : (invalidate s args).attempts[s.attempts.length]?
        = some ⟨getKey args, args, false, false, .queued⟩ := by
      rw [hrefresh]
      exact List.getElem?_concat_length _ _
    have hlen : s.attempts.length < (invalidate s args).attempts.length := by
      rw [hrefresh]
      simp
    have hstart : startAttempt (invalidate s args) s.attempts.length
        = { invalidate s args with
            attempts := (invalidate s args).attempts.set s.attempts.length
              ⟨getKey args, args, true, false, .running⟩ } := by
      rw [startAttempt]
      simp only [hatt]
      rfl
    have hatt2 : (startAttempt (invalidate s args) s.attempts.length).attempts[s.attempts.length]?
        = some ⟨getKey args, args, true, false, .running⟩ := by
      rw [hstart]
      exact List.getElem?_set_self hlen
    have hcache1 : (startAttempt (invalidate s args) s.attempts.length).cache
        = (invalidate s args).cache := by
      rw [hstart]
    have hsettle := settleAttempt_hit_ok (startAttempt (invalidate s args) s.attempts.length)
      s.attempts.length ⟨getKey args, args, true, false, .running⟩
      { e with args := args, next := some s.attempts.length } v2 hatt2 rfl
      (by rw [hcache1]; exact he1)
    have he3 : alookup (getKey args2)
        (settleAttempt (startAttempt (invalidate s args) s.attempts.length)
          s.attempts.length (.ok v2)).cache
        = some { e with
            state := .resolved v2, args := args, next := none,
            producer := some s.attempts.length } := by
      rw [hkey2, hsettle]
      exact alookup_aset_self _ _ _
    rw [read_of_settled _ args2 _ he3 (by rfl)]
    rfl

/-- Witness for C3: with value `42` cached and one subscriber, the entry
stays visible at `42` through the refresh and reads `7` after the refresh
settles. -/
theorem stale_while_revalidate_witness :
    (read (invalidate wSubState wreq) wreq).2 = .value 42 ∧
    (read (settleAttempt (startAttempt (invalidate wSubState wreq) 0) 0 (.ok 7)) wreq).2
      = .value 7 := by
  have h := stale_while_revalidate wSubState wreq wreq wEntry 42 rfl (by decide)
    (by decide) (by decide) (by decide)
  exact ⟨h.2.1, h.2.2 7⟩

/-! ### C2: priority preemption -/

theorem filter_length_set_invariant {α : Type} (p : α → Bool) :
    ∀ (l : List α) (i : Nat) (aOld b : α), l[i]? = some aOld → p b = p aOld →
      ((l.set i b).filter p).length = (l.filter p).length := by
  intro l
  induction l with
  | nil =>
    intro i a b h
    simp at h
  | cons hd tl ih =>
    intro i a b h hp
    cases i with
    | zero =>
      simp only [List.getElem?_cons_zero, Option.some.injEq] at h
      subst h
      rw [List.set_cons_zero, List.filter_cons, List.filter_cons, hp]
      cases hpa : p hd
      · simp [hpa]
      · simp [hpa]
    | succ n =>
      simp only [List.getElem?_cons_succ] at h
      rw [List.set_cons_succ, List.filter_cons, List.filter_cons]
      cases hph : p hd
      · simpa using ih n a b h hp
      · simpa using ih n a b h hp

/-- The preemption prologue of a read against a Pending entry whose attempt
has not started: the attempt is aborted and the entry deleted. -/
theorem phase1_preempt_unstarted {Data : Type} (s : SysState Data) (args2 : Request)
    (e : CacheEntry Data) (i : Nat) (a : Attempt)
    (he : alookup (getKey args2) s.cache = some e) (hstate : e.state = .pending i)
    (ha : s.attempts[i]? = some a) (hns : a.started = false)
    (hprio : reqPriority e.args < reqPriority args2) :
    phase1 s args2 false
      = { s with
          attempts := s.attempts.set i { a with aborted := true },
          cache := aerase (getKey args2) s.cache } := by
  rw [phase1]
  simp only [he, if_pos hprio]
  cases hn2 : e.next
  all_goals
    show phase1pending s (getKey args2) e = _
  all_goals
    rw [phase1pending, hstate]
  all_goals
    simp only [abortTry, ha, hns]
  all_goals rfl

/-- The preemption prologue of a read against a Pending entry whose attempt
has already started: the abort fails and nothing changes. -/
theorem phase1_preempt_started {Data : Type} (s : SysState Data) (args2 : Request)
    (e : CacheEntry Data) (i : Nat) (a : Attempt)
    (he : alookup (getKey args2) s.cache = some e) (hstate : e.state = .pending i)
    (ha : s.attempts[i]? = some a) (hs : a.started = true) (hab : a.aborted = false)
    (hprio : reqPriority e.args < reqPriority args2) :
    phase1 s args2 false = s := by
  rw [phase1]
  simp only [he, if_pos hprio]
  cases hn2 : e.next
  all_goals
    show phase1pending s (getKey args2) e = _
  all_goals
    rw [phase1pending, hstate]
  all_goals
    simp only [abortTry, ha, hs, hab]
  all_goals rfl

/-- C2: a higher-priority read against a Pending entry. Issued before the
attempt's body starts, it cancels the attempt (which consequently never runs
its fetch: its `started` flag stays false and it contributes no
fetch-function call) and submits a fresh attempt carrying the
higher-priority request, which becomes the new Pending entry. Issued after
the body started, the cancellation fails, the state is unchanged (no new
attempt), and the original attempt's settlement is what settles the
entry. -/
theorem priority_preemption {Data : Type} (s : SysState Data) (args2 : Request)
    (e : CacheEntry Data) (i : Nat) (a : Attempt)
    (he : alookup (getKey args2) s.cache = some e)
    (hstate : e.state = .pending i)
    (ha : s.attempts[i]? = some a) (hak : a.key = getKey args2)
    (hprio : reqPriority e.args < reqPriority args2) :
    (a.started = false →
      read s args2
        = ({ s with
             attempts := (s.attempts.set i { a with aborted := true })
               ++ [⟨getKey args2, args2, false, false, .queued⟩],
             cache := aset (getKey args2)
               ⟨.pending s.attempts.length, none, args2, none⟩
               (aerase (getKey args2) s.cache) },
           .throwPending s.attempts.length) ∧
      (∀ s2 : SysState Data, s2.attempts[i]? = some { a with aborted := true } →
        ((startAttempt s2 i).attempts[i]?).map Attempt.started = some false ∧
        fetchCalls (startAttempt s2 i) (getKey args2) = fetchCalls s2 (getKey args2))) ∧
    (a.started = true → a.aborted = false → a.phase = .running →
      read s args2 = (s, .throwPending i) ∧
      (∀ v, alookup (getKey args2) (settleAttempt s i (.ok v)).cache
        = some { e with state := .resolved v, next := none, producer := some i }) ∧
      (∀ msg, alookup (getKey args2) (settleAttempt s i (.error msg)).cache
        = some { e with
            state := .rejected (.useAsyncError msg), next := none,
            producer := some i })) := by
  constructor
  · intro hns
    constructor
    · have h1 := phase1_preempt_unstarted s args2 e i a he hstate ha hns hprio
      have habs : alookup (getKey args2) (phase1 s args2 false).cache = none := by
        rw [h1]
        exact alookup_aerase_self _ _
      have habs2 : alookup (getKey args2)
          ({ s with
             attempts := s.attempts.set i { a with aborted := true },
             cache := aerase (getKey args2) s.cache } : SysState Data).cache = none :=
        alookup_aerase_self _ _
      rw [read]
      simp only [startLoading]
      rw [h1, phase2_of_absent _ args2 false habs2]
      simp [alookup_aset_self, resultOf]
    · intro s2 hs2
      rw [startAttempt]
      simp only [hs2]
      by_cases hq : ({ a with aborted := true } : Attempt).phase = .queued
      · rw [if_pos hq]
        simp only [if_true]
        constructor
        · rw [List.getElem?_set_self (List.getElem?_eq_some_iff.mp hs2).1]
          simp [hns]
        · rw [fetchCalls, fetchCalls]
          exact filter_length_set_invariant _ s2.attempts i _ _ hs2 (by simp [hns])
      · rw [if_neg hq]
        constructor
        · rw [hs2]
          simp [hns]
        · rfl
  · intro hs hab hph
    have h1 := phase1_preempt_started s args2 e i a he hstate ha hs hab hprio
    refine ⟨?_, ?_, ?_⟩
    · rw [read]
      simp only [startLoading, h1, phase2_of_read_hit s args2 e he, he]
      rw [hstate]
      rfl
    · intro v
      rw [settleAttempt_hit_ok s i a e v ha hph (hak ▸ he)]
      rw [← hak]
      exact alookup_aset_self _ _ _
    · intro msg
      rw [settleAttempt_hit_err s i a e msg ha hph (hak ▸ he)]
      rw [← hak]
      exact alookup_aset_self _ _ _

/-- A Pending entry for `wreq` whose queued attempt has not started. -/
def wPendState : SysState Int :=
  { cache := [(wkey, ⟨.pending 0, none, wreq, none⟩)],
    attempts := [⟨wkey, wreq, false, false, .queued⟩],
    subs := fun _ => 0, log := [] }

/-- The same Request at higher priority. -/
def wreqHi : Request := [("a", JVal.str "x"), ("priority", JVal.num 5)]

/-- Witness for C2: before the body starts, the read preempts (new attempt 1
carries the high-priority request, attempt 0 never fetches); after it
started, the read changes nothing and the old attempt settles the entry. -/
theorem priority_preemption_witness :
    (read wPendState wreqHi).2 = .throwPending 1 ∧
    ((startAttempt (stepEv wPendState (.read wreqHi)) 0).attempts[0]?).map
      Attempt.started = some false ∧
    (read wRunPendingState wreqHi).2 = .throwPending 0 ∧
    alookup wkey (settleAttempt wRunPendingState 0 (.ok 5)).cache
      = some ⟨.resolved 5, none, wreq, some 0⟩ := by
  have h1 := (priority_preemption wPendState wreqHi ⟨.pending 0, none, wreq, none⟩ 0
    ⟨wkey, wreq, false, false, .queued⟩ (by decide) rfl rfl rfl (by decide)).1 rfl
  have h2 := (priority_preemption wRunPendingState wreqHi ⟨.pending 0, none, wreq, none⟩ 0
    ⟨wkey, wreq, true, false, .running⟩ (by decide) rfl rfl rfl (by decide)).2 rfl rfl rfl
  refine ⟨?_, ?_, ?_, ?_⟩
  · rw [h1.1]
    rfl
  · exact (h1.2 (stepEv wPendState (.read wreqHi)) (by decide)).1
  · rw [h2.1]
  · exact h2.2.1 5

/-! ### C6: the Pending-entry attempt invariant -/

/-- The attempt the cache table references for a fingerprint: a Pending
entry's `value` attempt, otherwise the entry's `next` refresh attempt. -/
def refOf {Data : Type} (e : CacheEntry Data) : Option Nat :=
  match e.state with
  | .pending i => some i
  | _ => e.next

/-- The table invariant: every attempt the table references exists, carries
its entry's fingerprint, and is neither cancelled nor finished; and Pending
entries have no `next`. -/
def TableInv {Data : Type} (s : SysState Data) : Prop :=
  (∀ key e i, alookup key s.cache = some e → refOf e = some i →
    ∃ a, s.attempts[i]? = some a ∧ a.key = key ∧ a.aborted = false ∧
      a.phase ≠ .finished) ∧
  (∀ key e, alookup key s.cache = some e → e.state.isPending = true → e.next = none)

theorem tableInv_deleteNotify {Data : Type} (s : SysState Data) (key : String)
    (hInv : TableInv s) : TableInv (deleteNotify s key) := by
  obtain ⟨href, hpn⟩ := hInv
  constructor
  · intro k e i he hr
    replace he : alookup k (aerase key s.cache) = some e := he
    by_cases hk : k = key
    · rw [hk, alookup_aerase_self] at he
      cases he
    · rw [alookup_aerase_ne hk] at he
      exact href k e i he hr
  · intro k e he hp
    replace he : alookup k (aerase key s.cache) = some e := he
    by_cases hk : k = key
    · rw [hk, alookup_aerase_self] at he
      cases he
    · rw [alookup_aerase_ne hk] at he
      exact hpn k e he hp

theorem tableInv_startAttempt {Data : Type} (s : SysState Data) (m : Nat)
    (hInv : TableInv s) : TableInv (startAttempt s m) := by
  obtain ⟨href, hpn⟩ := hInv
  rw [startAttempt]
  cases hm : s.attempts[m]? with
  | none => exact ⟨href, hpn⟩
  | some b =>
    simp only []
    by_cases hq : b.phase = .queued
    · rw [if_pos hq]
      by_cases hab : b.aborted = true
      · rw [if_pos hab]
        constructor
        · intro k e i he hr
          obtain ⟨a, ha, hkey, habort, hfin⟩ := href k e i he hr
          have him : i ≠ m := by
            intro hout
            rw [hout, hm] at ha
            cases ha
            exact absurd hab (by rw [habort]; simp)
          exact ⟨a, by rw [List.getElem?_set_ne (fun hh => him hh.symm)]; exact ha,
            hkey, habort, hfin⟩
        · exact hpn
      · rw [if_neg hab]
        constructor
        · intro k e i he hr
          obtain ⟨a, ha, hkey, habort, hfin⟩ := href k e i he hr
          by_cases him : i = m
          · subst him
            rw [hm] at ha
            cases ha
            refine ⟨{ b with started := true, phase := .running }, ?_, hkey, ?_, ?_⟩
            · exact List.getElem?_set_self (List.getElem?_eq_some_iff.mp hm).1
            · exact habort
            · simp
          · exact ⟨a, by rw [List.getElem?_set_ne (fun hh => him hh.symm)]; exact ha,
              hkey, habort, hfin⟩
        · exact hpn
    · rw [if_neg hq]
      exact ⟨href, hpn⟩

theorem refOf_of_settled {Data : Type} (e : CacheEntry Data)
    (hp : e.state.isPending = false) (hn : e.next = none) : refOf e = none := by
  rw [refOf]
  cases hst : e.state with
  | pending i =>
    rw [hst] at hp
    simp [EntryVal.isPending] at hp
  | resolved v => exact hn
  | rejected er => exact hn

theorem tableInv_aset_settled {Data : Type} (s : SysState Data) (key : String)
    (e2 : CacheEntry Data) (m : Nat) (b : Attempt)
    (hm : s.attempts[m]? = some b) (hbk : b.key = key)
    (hp2 : e2.state.isPending = false) (hn2 : e2.next = none) (hInv : TableInv s) :
    TableInv { s with
               attempts := s.attempts.set m { b with phase := .finished },
               cache := aset key e2 s.cache,
               log := s.log ++ [key, "any"] } := by
  obtain ⟨href, hpn⟩ := hInv
  constructor
  · intro k e i he hr
    replace he : alookup k (aset key e2 s.cache) = some e := he
    by_cases hk : k = key
    · rw [hk, alookup_aset_self] at he
      cases he
      rw [refOf_of_settled e2 hp2 hn2] at hr
      cases hr
    · rw [alookup_aset_ne hk] at he
      obtain ⟨a, ha, hkey, habort, hfin⟩ := href k e i he hr
      have him : i ≠ m := by
        intro h2
        rw [h2, hm] at ha
        cases ha
        exact hk (hkey.symm.trans hbk)
      exact ⟨a, by rw [List.getElem?_set_ne (fun hh => him hh.symm)]; exact ha,
        hkey, habort, hfin⟩
  · intro k e he hp
    replace he : alookup k (aset key e2 s.cache) = some e := he
    by_cases hk : k = key
    · rw [hk, alookup_aset_self] at he
      cases he
      rw [hp2] at hp
      cases hp
    · rw [alookup_aset_ne hk] at he
      exact hpn k e he hp

theorem tableInv_settleAttempt {Data : Type} (s : SysState Data) (m : Nat)
    (outcome : Except String Data) (hInv : TableInv s) :
    TableInv (settleAttempt s m outcome) := by
  cases hm : s.attempts[m]? with
  | none =>
    have hs : settleAttempt s m outcome = s := by
      rw [settleAttempt]
      simp only [hm]
    rw [hs]
    exact hInv
  | some b =>
    by_cases hq : b.phase = .running
    · cases hkm : alookup b.key s.cache with
      | none =>
        have hs : settleAttempt s m outcome
            = { s with attempts := s.attempts.set m { b with phase := .finished } } := by
          rw [settleAttempt]
          simp only [hm, if_pos hq, hkm]
        rw [hs]
        obtain ⟨href, hpn⟩ := hInv
        refine ⟨?_, hpn⟩
        intro k e i he hr
        obtain ⟨a, ha, hkey, habort, hfin⟩ := href k e i he hr
        have him : i ≠ m := by
          intro h2
          rw [h2, hm] at ha
          cases ha
          rw [hkey] at hkm
          rw [hkm] at he
          cases he
        exact ⟨a, by rw [List.getElem?_set_ne (fun hh => him hh.symm)]; exact ha,
          hkey, habort, hfin⟩
      | some e0 =>
        cases outcome with
        | ok v =>
          rw [settleAttempt_hit_ok s m b e0 v hm hq hkm]
          exact tableInv_aset_settled s b.key _ m b hm rfl rfl rfl hInv
        | error msg =>
          rw [settleAttempt_hit_err s m b e0 msg hm hq hkm]
          exact tableInv_aset_settled s b.key _ m b hm rfl rfl rfl hInv
    · have hs : settleAttempt s m outcome = s := by
        rw [settleAttempt]
        simp only [hm, if_neg hq]
      rw [hs]
      exact hInv

theorem tableInv_phase1pending {Data : Type} (s : SysState Data) (key : String)
    (e : CacheEntry Data) (he : alookup key s.cache = some e) (hInv : TableInv s) :
    TableInv (phase1pending s key e) := by
  obtain ⟨href, hpn⟩ := hInv
  rw [phase1pending]
  cases hst : e.state with
  | pending i =>
    have hr : refOf e = some i := by
      rw [refOf, hst]
    obtain ⟨a, ha, hkey, habort, hfin⟩ := href key e i he hr
    simp only [abortTry, ha]
    by_cases hstarted : a.started = true
    · simp only [hstarted, if_true, habort]
      rw [if_neg (by simp)]
      exact ⟨href, hpn⟩
    · have hstarted2 : a.started = false := by
        revert hstarted
        cases a.started <;> simp
      simp only [hstarted2, Bool.false_eq_true, if_false, if_true]
      constructor
      · intro k e2 i2 he2 hr2
        replace he2 : alookup k (aerase key s.cache) = some e2 := he2
        by_cases hk : k = key
        · rw [hk, alookup_aerase_self] at he2
          cases he2
        · rw [alookup_aerase_ne hk] at he2
          obtain ⟨a2, ha2, hkey2, habort2, hfin2⟩ := href k e2 i2 he2 hr2
          have him : i2 ≠ i := by
            intro h2
            rw [h2, ha] at ha2
            cases ha2
            exact hk (hkey2.symm.trans hkey)
          exact ⟨a2, by rw [List.getElem?_set_ne (fun hh => him hh.symm)]; exact ha2,
            hkey2, habort2, hfin2⟩
      · intro k e2 he2 hp2
        replace he2 : alookup k (aerase key s.cache) = some e2 := he2
        by_cases hk : k = key
        · rw [hk, alookup_aerase_self] at he2
          cases he2
        · rw [alookup_aerase_ne hk] at he2
          exact hpn k e2 he2 hp2
  | resolved v => exact ⟨href, hpn⟩
  | rejected er => exact ⟨href, hpn⟩

theorem tableInv_phase1 {Data : Type} (s : SysState Data) (args : Request)
    (isRefetch : Bool) (hInv : TableInv s) : TableInv (phase1 s args isRefetch) := by
  obtain ⟨href, hpn⟩ := hInv
  rw [phase1]
  cases he : alookup (getKey args) s.cache with
  | none => exact ⟨href, hpn⟩
  | some e =>
    simp only []
    by_cases hprio : reqPriority e.args < reqPriority args
    · rw [if_pos hprio]
      cases isRefetch with
      | false => exact tableInv_phase1pending s _ e he ⟨href, hpn⟩
      | true =>
        cases hn : e.next with
        | none => exact tableInv_phase1pending s _ e he ⟨href, hpn⟩
        | some nid =>
          have hsettled : e.state.isPending = false := by
            cases hst : e.state with
            | pending j =>
              have hcontra := hpn _ e he (by rw [hst]; rfl)
              rw [hcontra] at hn
              cases hn
            | resolved v => rfl
            | rejected er => rfl
          have hr : refOf e = some nid := by
            rw [refOf]
            cases hst : e.state with
            | pending j =>
              rw [hst] at hsettled
              simp [EntryVal.isPending] at hsettled
            | resolved v => exact hn
            | rejected er => exact hn
          obtain ⟨a, ha, hkey, habort, hfin⟩ := href _ e nid he hr
          simp only [abortTry, ha]
          by_cases hstarted : a.started = true
          · simp only [hstarted, if_true, habort]
            rw [if_neg (by simp)]
            exact tableInv_phase1pending s _ e he ⟨href, hpn⟩
          · have hstarted2 : a.started = false := by
              revert hstarted
              cases a.started <;> simp
            simp only [hstarted2, Bool.false_eq_true, if_false, if_true]
            constructor
            · intro k e2 i2 he2 hr2
              replace he2 : alookup k
                  (aset (getKey args) { e with next := none } s.cache) = some e2 := he2
              by_cases hk : k = getKey args
              · rw [hk, alookup_aset_self] at he2
                cases he2
                rw [refOf_of_settled { e with next := none } hsettled rfl] at hr2
                cases hr2
              · rw [alookup_aset_ne hk] at he2
                obtain ⟨a2, ha2, hkey2, habort2, hfin2⟩ := href k e2 i2 he2 hr2
                have him : i2 ≠ nid := by
                  intro h2
                  rw [h2, ha] at ha2
                  cases ha2
                  exact hk (hkey2.symm.trans hkey)
                exact ⟨a2, by rw [List.getElem?_set_ne (fun hh => him hh.symm)]; exact ha2,
                  hkey2, habort2, hfin2⟩
            · intro k e2 he2 hp2
              replace he2 : alookup k
                  (aset (getKey args) { e with next := none } s.cache) = some e2 := he2
              by_cases hk : k = getKey args
              · rw [hk, alookup_aset_self] at he2
                cases he2
                rfl
              · rw [alookup_aset_ne hk] at he2
                exact hpn k e2 he2 hp2
    · rw [if_neg hprio]
      exact ⟨href, hpn⟩

theorem tableInv_phase2 {Data : Type} (s : SysState Data) (args : Request)
    (isRefetch : Bool) (hInv : TableInv s) : TableInv (phase2 s args isRefetch) := by
  obtain ⟨href, hpn⟩ := hInv
  rw [phase2]
  cases he : alookup (getKey args) s.cache with
  | none =>
    simp only []
    constructor
    · intro k e i he2 hr
      replace he2 : alookup k (aset (getKey args)
          (⟨.pending s.attempts.length, none, args, none⟩ : CacheEntry Data) s.cache)
          = some e := he2
      by_cases hk : k = getKey args
      · rw [hk, alookup_aset_self] at he2
        cases he2
        have hr2 : some s.attempts.length = some i := hr
        cases hr2
        refine ⟨⟨getKey args, args, false, false, .queued⟩, ?_, ?_, rfl, by simp⟩
        · exact List.getElem?_concat_length _ _
        · rw [hk]
      · rw [alookup_aset_ne hk] at he2
        obtain ⟨a, ha, hkey, habort, hfin⟩ := href k e i he2 hr
        have hlt : i < s.attempts.length := (List.getElem?_eq_some_iff.mp ha).1
        exact ⟨a, by rw [List.getElem?_append_left hlt]; exact ha, hkey, habort, hfin⟩
    · intro k e he2 hp
      replace he2 : alookup k (aset (getKey args)
          (⟨.pending s.attempts.length, none, args, none⟩ : CacheEntry Data) s.cache)
          = some e := he2
      by_cases hk : k = getKey args
      · rw [hk, alookup_aset_self] at he2
        cases he2
        rfl
      · rw [alookup_aset_ne hk] at he2
        exact hpn k e he2 hp
  | some e =>
    simp only []
    by_cases hcond : (isRefetch && !e.state.isPending) = true
    · rw [if_pos hcond]
      have hsettled : e.state.isPending = false := by
        simp only [Bool.and_eq_true, Bool.not_eq_true'] at hcond
        exact hcond.2
      constructor
      · intro k e2 i2 he2 hr2
        replace he2 : alookup k (aset (getKey args)
            { e with args := args, next := some s.attempts.length } s.cache) = some e2 := he2
        by_cases hk : k = getKey args
        · rw [hk, alookup_aset_self] at he2
          cases he2
          have hr3 : some s.attempts.length = some i2 := by
            rw [refOf] at hr2
            cases hst : e.state with
            | pending j =>
              rw [hst] at hsettled
              simp [EntryVal.isPending] at hsettled
            | resolved v =>
              rw [hst] at hr2
              exact hr2
            | rejected er =>
              rw [hst] at hr2
              exact hr2
          cases hr3
          refine ⟨⟨getKey args, args, false, false, .queued⟩, ?_, ?_, rfl, by simp⟩
          · exact List.getElem?_concat_length _ _
          · rw [hk]
        · rw [alookup_aset_ne hk] at he2
          obtain ⟨a, ha, hkey, habort, hfin⟩ := href k e2 i2 he2 hr2
          have hlt : i2 < s.attempts.length := (List.getElem?_eq_some_iff.mp ha).1
          exact ⟨a, by rw [List.getElem?_append_left hlt]; exact ha, hkey, habort, hfin⟩
      · intro k e2 he2 hp2
        replace he2 : alookup k (aset (getKey args)
            { e with args := args, next := some s.attempts.length } s.cache) = some e2 := he2
        by_cases hk : k = getKey args
        · rw [hk, alookup_aset_self] at he2
          cases he2
          have hp3 : e.state.isPending = true := hp2
          rw [hsettled] at hp3
          cases hp3
        · rw [alookup_aset_ne hk] at he2
          exact hpn k e2 he2 hp2
    · rw [if_neg hcond]
      exact ⟨href, hpn⟩

theorem tableInv_startLoading {Data : Type} (s : SysState Data) (args : Request)
    (isRefetch : Bool) (hInv : TableInv s) : TableInv (startLoading s args isRefetch) :=
  tableInv_phase2 _ args isRefetch (tableInv_phase1 s args isRefetch hInv)

theorem tableInv_invalidate {Data : Type} (s : SysState Data) (args : Request)
    (hInv : TableInv s) : TableInv (invalidate s args) := by
  rw [invalidate]
  by_cases hsubs : 0 < s.subs (getKey args)
  · rw [if_pos hsubs]
    cases he : alookup (getKey args) s.cache with
    | none => exact tableInv_deleteNotify s _ hInv
    | some e =>
      simp only []
      by_cases hb : (!e.state.isPending && e.next.isNone) = true
      · rw [if_pos hb]
        exact tableInv_startLoading s args true hInv
      · rw [if_neg hb]
        exact tableInv_deleteNotify s _ hInv
  · rw [if_neg hsubs]
    exact tableInv_deleteNotify s _ hInv

theorem tableInv_foldl_invalidate {Data : Type}
    (l : List (Request × EntryVal Data)) (onlyRejected : Bool) :
    ∀ s : SysState Data, TableInv s →
    TableInv (l.foldl
      (fun st pr => if !onlyRejected || pr.2.isRejected then invalidate st pr.1 else st) s) := by
  induction l with
  | nil =>
    intro s h
    exact h
  | cons p t ih =>
    intro s h
    rw [List.foldl_cons]
    by_cases hc : (!onlyRejected || p.2.isRejected) = true
    · rw [if_pos hc]
      exact ih _ (tableInv_invalidate _ _ h)
    · rw [if_neg hc]
      exact ih _ h

theorem tableInv_invalidateAll {Data : Type} (s : SysState Data) (onlyRejected : Bool)
    (hInv : TableInv s) : TableInv (invalidateAll s onlyRejected) :=
  tableInv_foldl_invalidate _ onlyRejected s hInv

theorem read_fst {Data : Type} (s : SysState Data) (args : Request) :
    (read s args).1 = startLoading s args false := by
  rw [read]
  cases alookup (getKey args) (startLoading s args false).cache <;> rfl

theorem preload_fst {Data : Type} (s : SysState Data) (args : Request) :
    (preload s args).1 = startLoading s args false := by
  rw [preload]
  cases alookup (getKey args) (startLoading s args false).cache <;> rfl

theorem tableInv_stepEv {Data : Type} (s : SysState Data) (ev : Event Data)
    (hInv : TableInv s) : TableInv (stepEv s ev) := by
  cases ev with
  | read args =>
    show TableInv (read s args).1
    rw [read_fst]
    exact tableInv_startLoading s args false hInv
  | preload args =>
    show TableInv (preload s args).1
    rw [preload_fst]
    exact tableInv_startLoading s args false hInv
  | invalidate args => exact tableInv_invalidate s args hInv
  | invalidateAll b => exact tableInv_invalidateAll s b hInv
  | subscribe key => exact hInv
  | unsubscribe key => exact hInv
  | start i => exact tableInv_startAttempt s i hInv
  | settle i outcome => exact tableInv_settleAttempt s i outcome hInv

theorem tableInv_runEvents {Data : Type} (evs : List (Event Data)) :
    ∀ s : SysState Data, TableInv s → TableInv (runEvents s evs) := by
  induction evs with
  | nil =>
    intro s h
    exact h
  | cons ev t ih =>
    intro s h
    exact ih _ (tableInv_stepEv s ev h)

theorem tableInv_initState (Data : Type) : TableInv (initState Data) := by
  constructor
  · intro k e i he
    simp [alookup, initState] at he
  · intro k e he
    simp [alookup, initState] at he

/-- The C6 claim as the specification states it: a Pending entry's attempt
is the sole unsettled, uncancelled attempt for its fingerprint, in every
state reachable by the public operations and scheduler steps. -/
def PendingSoleInflight : Prop :=
  ∀ (Data : Type) (evs : List (Event Data)) (key : String) (e : CacheEntry Data) (i : Nat),
    alookup key (runEvents (initState Data) evs).cache = some e →
    e.state = .pending i →
    ∀ j b, (runEvents (initState Data) evs).attempts[j]? = some b →
      b.key = key → j ≠ i → b.aborted = true ∨ b.phase = .finished

/-- C6 counterexample: after `read wreq; invalidate wreq; read wreq` (no
subscribers), the entry is Pending on attempt 1 while the orphaned attempt 0
for the same fingerprint is still queued, unaborted and unsettled. -/
theorem pending_sole_inflight_false : ¬ PendingSoleInflight := by
  intro h
  have hcex := h Int [.read wreq, .invalidate wreq, .read wreq] wkey
    ⟨.pending 1, none, wreq, none⟩ 1 (by decide) rfl 0
    ⟨wkey, wreq, false, false, .queued⟩ (by decide) rfl (by decide)
  rcases hcex with h1 | h1
  · exact absurd h1 (by decide)
  · exact absurd h1 (by decide)

/-- C6 amended: in every reachable state, a Pending entry's `value` is an
existing attempt for that fingerprint that is unaborted and unsettled, and
it is the only attempt the table references for the fingerprint (the entry
has no `next`); however, orphaned attempts — whose entry was deleted before
they settled — may still be in flight for the same fingerprint. -/
theorem pending_entry_live_sole_referenced {Data : Type} (evs : List (Event Data))
    (key : String) (e : CacheEntry Data) (i : Nat)
    (he : alookup key (runEvents (initState Data) evs).cache = some e)
    (hp : e.state = .pending i) :
    e.next = none ∧
    ∃ a, (runEvents (initState Data) evs).attempts[i]? = some a ∧ a.key = key ∧
      a.aborted = false ∧ a.phase ≠ .finished := by
  have hInv := tableInv_runEvents evs (initState Data) (tableInv_initState Data)
  refine ⟨hInv.2 key e he (by rw [hp]; rfl), ?_⟩
  exact hInv.1 key e i he (by rw [refOf, hp])

/-- Witness for the amended C6 after a single read. -/
theorem pending_entry_live_sole_referenced_witness :
    (⟨.pending 0, none, wreq, none⟩ : CacheEntry Int).next = none ∧
    ∃ a, (runEvents (initState Int) [.read wreq]).attempts[0]? = some a ∧ a.key = wkey ∧
      a.aborted = false ∧ a.phase ≠ .finished :=
  pending_entry_live_sole_referenced [.read wreq] wkey ⟨.pending 0, none, wreq, none⟩ 0
    (by decide) rfl

/-- A state with one orphaned running attempt and no entry. -/
def wOrphanState : SysState Int :=
  { cache := [], attempts := [⟨wkey, wreq, true, false, .running⟩],
    subs := fun _ => 0, log := [] }

/-- Witness for C8: an orphaned running attempt settles with no table
mutation and no notification. -/
theorem settle_on_deleted_entry_witness :
    (settleAttempt wOrphanState 0 (.ok 42)).cache = [] ∧
    (settleAttempt wOrphanState 0 (.ok 42)).log = [] := by
  have h := settle_on_deleted_entry wOrphanState 0 ⟨wkey, wreq, true, false, .running⟩
    rfl rfl (.ok 42)
  exact ⟨h.1, h.2.1⟩

/-! ### C7: what `args` names during a refresh window -/

/-- The C7 claim as the specification states it: in every reachable state an
entry's `args` is the Request whose attempt produced the currently visible
value or error (the producing attempt is tracked by the ghost `producer`
field, set at settlement). -/
def ArgsNameProducer : Prop :=
  ∀ (Data : Type) (evs : List (Event Data)) (key : String) (e : CacheEntry Data),
    alookup key (runEvents (initState Data) evs).cache = some e →
    ∀ i, e.producer = some i →
      ∃ a, (runEvents (initState Data) evs).attempts[i]? = some a ∧ a.args = e.args

/-- C7 counterexample: subscribe, read `wreq`, settle it, then invalidate
with `wreqHi` (same fingerprint, different Request). During the refresh
window the visible value was produced by attempt 0, whose Request is
`wreq`, but the entry's `args` is already the refresh Request `wreqHi`. -/
theorem args_name_producer_false : ¬ ArgsNameProducer := by
  intro h
  obtain ⟨a, ha, hargs⟩ := h Int
    [.subscribe wkey, .read wreq, .start 0, .settle 0 (.ok 42), .invalidate wreqHi]
    wkey ⟨.resolved 42, some 1, wreqHi, some 0⟩ (by decide) 0 rfl
  rw [show (runEvents (initState Int)
      [.subscribe wkey, .read wreq, .start 0, .settle 0 (.ok 42),
        .invalidate wreqHi]).attempts[0]?
    = some ⟨wkey, wreq, true, false, .finished⟩ from by decide] at ha
  cases ha
  exact absurd hargs (by decide)

/-- C7 amended: `args` names the Request of the most recent attempt stored
into the entry. When a refresh is submitted, `args` is immediately updated
to the refresh Request — while the stale value, produced by an earlier
Request, remains visible — and settlement never changes `args`. -/
theorem args_updated_at_submission_not_settlement {Data : Type} :
    (∀ (s : SysState Data) (args : Request) (e : CacheEntry Data),
      alookup (getKey args) s.cache = some e → 0 < s.subs (getKey args) →
      e.state.isPending = false → e.next = none →
      alookup (getKey args) (invalidate s args).cache
        = some { e with args := args, next := some s.attempts.length }) ∧
    (∀ (s : SysState Data) (i : Nat) (outcome : Except String Data) (k : String)
      (e2 : CacheEntry Data),
      alookup k (settleAttempt s i outcome).cache = some e2 →
      ∃ e, alookup k s.cache = some e ∧ e2.args = e.args) := by
  constructor
  · intro s args e he hsubs hp hn
    rw [invalidate_refresh_eq s args e he hsubs hp hn]
    exact alookup_aset_self _ _ _
  · intro s i outcome k e2 he2
    cases hm : s.attempts[i]? with
    | none =>
      have hs : settleAttempt s i outcome = s := by
        rw [settleAttempt]
        simp only [hm]
      rw [hs] at he2
      exact ⟨e2, he2, rfl⟩
    | some b =>
      by_cases hq : b.phase = .running
      · cases hkm : alookup b.key s.cache with
        | none =>
          have hs : settleAttempt s i outcome
              = { s with attempts := s.attempts.set i { b with phase := .finished } } := by
            rw [settleAttempt]
            simp only [hm, if_pos hq, hkm]
          rw [hs] at he2
          exact ⟨e2, he2, rfl⟩
        | some e0 =>
          have hshape : ∃ st2, settleAttempt s i outcome
              = { s with
                  attempts := s.attempts.set i { b with phase := .finished },
                  cache := aset b.key
                    { e0 with state := st2, next := none, producer := some i } s.cache,
                  log := s.log ++ [b.key, "any"] } := by
            cases outcome with
            | ok v =>
              exact ⟨.resolved v, settleAttempt_hit_ok s i b e0 v hm hq hkm⟩
            | error msg =>
              exact ⟨.rejected (.useAsyncError msg),
                settleAttempt_hit_err s i b e0 msg hm hq hkm⟩
          obtain ⟨st2, hs⟩ := hshape
          rw [hs] at he2
          replace he2 : alookup k (aset b.key
              { e0 with state := st2, next := none, producer := some i } s.cache)
              = some e2 := he2
          by_cases hk : k = b.key
          · rw [hk, alookup_aset_self] at he2
            cases he2
            exact ⟨e0, hk ▸ hkm, rfl⟩
          · rw [alookup_aset_ne hk] at he2
            exact ⟨e2, he2, rfl⟩
      · have hs : settleAttempt s i outcome = s := by
          rw [settleAttempt]
          simp only [hm, if_neg hq]
        rw [hs] at he2
        exact ⟨e2, he2, rfl⟩

/-- Witness for the amended C7: invalidating with `wreqHi` stores `wreqHi`
in `args` at submission time, while the entry still shows the old value. -/
theorem args_updated_at_submission_witness :
    alookup (getKey wreqHi) (invalidate wSubState wreqHi).cache
      = some ⟨.resolved 42, some 0, wreqHi, none⟩ :=
  (@args_updated_at_submission_not_settlement Int).1 wSubState wreqHi wEntry
    (by decide) (by decide) (by decide) (by decide)

/-! ### C1: deduplication of fetch calls -/

theorem getElem?_concat_cases {α : Type} {l : List α} {x b : α} {j : Nat}
    (h : (l ++ [x])[j]? = some b) :
    (j < l.length ∧ l[j]? = some b) ∨ (j = l.length ∧ b = x) := by
  by_cases hj : j < l.length
  · left
    refine ⟨hj, ?_⟩
    rw [List.getElem?_append_left hj] at h
    exact h
  · right
    by_cases hj2 : j = l.length
    · subst hj2
      rw [List.getElem?_concat_length] at h
      cases h
      exact ⟨rfl, rfl⟩
    · exfalso
      have hlen : (l ++ [x]).length ≤ j := by
        simp only [List.length_append, List.length_singleton]
        omega
      rw [List.getElem?_eq_none hlen] at h
      cases h

theorem getElem?_set_cases {α : Type} {l : List α} {i j : Nat} {x b : α}
    (h : (l.set i x)[j]? = some b) :
    (j = i ∧ b = x ∧ i < l.length) ∨ (j ≠ i ∧ l[j]? = some b) := by
  by_cases hj : j = i
  · subst hj
    left
    have hlt : j < l.length := by
      have := (List.getElem?_eq_some_iff.mp h).1
      simpa using this
    rw [List.getElem?_set_self hlt] at h
    cases h
    exact ⟨rfl, rfl, hlt⟩
  · right
    rw [List.getElem?_set_ne (fun hh => hj hh.symm)] at h
    exact ⟨hj, h⟩

theorem filter_length_le_one_idx {α : Type} (p : α → Bool) :
    ∀ (l : List α) (i : Nat), (∀ j b, l[j]? = some b → p b = true → j = i) →
      (l.filter p).length ≤ 1 := by
  intro l
  induction l with
  | nil =>
    intro i _
    simp
  | cons x t ih =>
    intro i h
    rw [List.filter_cons]
    cases hp : p x with
    | false =>
      simp only [Bool.false_eq_true, if_false]
      cases i with
      | zero =>
        have hnone : ∀ b ∈ t, ¬ p b = true := by
          intro b hb hpb
          obtain ⟨j, hj⟩ := List.getElem?_of_mem hb
          have := h (j + 1) b (by simpa using hj) hpb
          omega
        rw [List.filter_eq_nil_iff.mpr hnone]
        simp
      | succ n =>
        exact ih n (fun j b hj hpb => by
          have := h (j + 1) b (by simpa using hj) hpb
          omega)
    | true =>
      simp only [if_true]
      have hi : i = 0 := (h 0 x (by simp) hp).symm
      subst hi
      have hnone : ∀ b ∈ t, ¬ p b = true := by
        intro b hb hpb
        obtain ⟨j, hj⟩ := List.getElem?_of_mem hb
        have := h (j + 1) b (by simpa using hj) hpb
        omega
      rw [List.filter_eq_nil_iff.mpr hnone]
      simp

theorem phase1_absent {Data : Type} (s : SysState Data) (args : Request)
    (isRefetch : Bool) (he : alookup (getKey args) s.cache = none) :
    phase1 s args isRefetch = s := by
  rw [phase1]
  simp only [he]

theorem phase1_noprio {Data : Type} (s : SysState Data) (args : Request)
    (isRefetch : Bool) (e : CacheEntry Data)
    (he : alookup (getKey args) s.cache = some e)
    (hprio : ¬ reqPriority e.args < reqPriority args) :
    phase1 s args isRefetch = s := by
  rw [phase1]
  simp only [he]
  rw [if_neg hprio]

theorem read_creates_entry {Data : Type} (s : SysState Data) (args : Request) :
    (alookup (getKey args) ((read s args).1).cache).isSome = true := by
  rw [read_fst, startLoading]
  generalize phase1 s args false = s1
  rw [phase2]
  cases he : alookup (getKey args) s1.cache with
  | none =>
    simp only []
    rw [alookup_aset_self]
    rfl
  | some e =>
    simp only []
    rw [if_neg (by simp)]
    rw [he]
    rfl

theorem startAttempt_cache {Data : Type} (s : SysState Data) (m : Nat) :
    (startAttempt s m).cache = s.cache := by
  rw [startAttempt]
  cases hm : s.attempts[m]? with
  | none => rfl
  | some b =>
    simp only []
    by_cases hq : b.phase = .queued
    · rw [if_pos hq]
      by_cases hab : b.aborted = true
      · rw [if_pos hab]
      · rw [if_neg hab]
    · rw [if_neg hq]

theorem c1Inv_read {Data : Type} (s : SysState Data) (args : Request)
    (hInv : C1Inv (getKey args) s) : C1Inv (getKey args) (read s args).1 := by
  rw [read_fst]
  cases he : alookup (getKey args) s.cache with
  | none =>
    have hnil := hInv.noentry he
    rw [startLoading, phase1_absent s args false he, phase2_of_absent s args false he]
    constructor
    · intro j a hj
      rcases getElem?_concat_cases hj with ⟨_, hold⟩ | ⟨_, hax⟩
      · exact hInv.keys j a hold
      · rw [hax]
    · intro j a hj
      rcases getElem?_concat_cases hj with ⟨_, hold⟩ | ⟨_, hax⟩
      · exact hInv.abns j a hold
      · rw [hax]
        intro h2
        simp at h2
    · intro j a hj
      rcases getElem?_concat_cases hj with ⟨_, hold⟩ | ⟨_, hax⟩
      · exact hInv.finab j a hold
      · rw [hax]
        intro h2
        simp at h2
    · intro j a hj
      rcases getElem?_concat_cases hj with ⟨_, hold⟩ | ⟨_, hax⟩
      · exact hInv.runst j a hold
      · rw [hax]
        intro h2
        simp at h2
    · intro e2 hee
      replace hee : alookup (getKey args) (aset (getKey args)
          (⟨.pending s.attempts.length, none, args, none⟩ : CacheEntry Data) s.cache)
          = some e2 := hee
      rw [alookup_aset_self] at hee
      cases hee
      refine ⟨s.attempts.length, ⟨getKey args, args, false, false, .queued⟩, rfl,
        List.getElem?_concat_length _ _, rfl, ?_⟩
      intro j b hj hji
      rcases getElem?_concat_cases hj with ⟨hlt, _⟩ | ⟨hje, _⟩
      · rw [hnil] at hlt
        simp at hlt
      · exact absurd hje hji
    · intro hne
      replace hne : alookup (getKey args) (aset (getKey args)
          (⟨.pending s.attempts.length, none, args, none⟩ : CacheEntry Data) s.cache)
          = none := hne
      rw [alookup_aset_self] at hne
      cases hne
  | some e =>
    obtain ⟨i, a, hpend, ha, hnab, hsole⟩ := hInv.entry e he
    by_cases hprio : reqPriority e.args < reqPriority args
    · by_cases hstarted : a.started = true
      · rw [startLoading, phase1_preempt_started s args e i a he hpend ha hstarted hnab hprio,
          phase2_of_read_hit s args e he]
        exact ⟨hInv.keys, hInv.abns, hInv.finab, hInv.runst, hInv.entry, hInv.noentry⟩
      · have hstarted2 : a.started = false := by
          revert hstarted
          cases a.started <;> simp
        have h1 := phase1_preempt_unstarted s args e i a he hpend ha hstarted2 hprio
        have habs2 : alookup (getKey args)
            ({ s with
               attempts := s.attempts.set i { a with aborted := true },
               cache := aerase (getKey args) s.cache } : SysState Data).cache = none :=
          alookup_aerase_self _ _
        rw [startLoading, h1, phase2_of_absent _ args false habs2]
        constructor
        · intro j b hj
          rcases getElem?_concat_cases hj with ⟨_, hold⟩ | ⟨_, hbx⟩
          · rcases getElem?_set_cases hold with ⟨_, hbx2, _⟩ | ⟨_, hold2⟩
            · rw [hbx2]
              exact hInv.keys i a ha
            · exact hInv.keys j b hold2
          · rw [hbx]
        · intro j b hj
          rcases getElem?_concat_cases hj with ⟨_, hold⟩ | ⟨_, hbx⟩
          · rcases getElem?_set_cases hold with ⟨_, hbx2, _⟩ | ⟨_, hold2⟩
            · rw [hbx2]
              intro _
              exact hstarted2
            · exact hInv.abns j b hold2
          · rw [hbx]
            intro h2
            simp at h2
        · intro j b hj
          rcases getElem?_concat_cases hj with ⟨_, hold⟩ | ⟨_, hbx⟩
          · rcases getElem?_set_cases hold with ⟨_, hbx2, _⟩ | ⟨_, hold2⟩
            · rw [hbx2]
              intro _
              rfl
            · exact hInv.finab j b hold2
          · rw [hbx]
            intro h2
            simp at h2
        · intro j b hj
          rcases getElem?_concat_cases hj with ⟨_, hold⟩ | ⟨_, hbx⟩
          · rcases getElem?_set_cases hold with ⟨_, hbx2, _⟩ | ⟨_, hold2⟩
            · rw [hbx2]
              intro h2
              exact absurd (hInv.runst i a ha h2) (by simp [hstarted2])
            · exact hInv.runst j b hold2
          · rw [hbx]
            intro h2
            simp at h2
        · intro e2 hee
          replace hee : alookup (getKey args) (aset (getKey args)
              (⟨.pending (s.attempts.set i { a with aborted := true }).length, none,
                args, none⟩ : CacheEntry Data)
              (aerase (getKey args) s.cache)) = some e2 := hee
          rw [alookup_aset_self] at hee
          cases hee
          refine ⟨(s.attempts.set i { a with aborted := true }).length,
            ⟨getKey args, args, false, false, .queued⟩, rfl,
            List.getElem?_concat_length _ _, rfl, ?_⟩
          intro j b hj hji
          rcases getElem?_concat_cases hj with ⟨_, hold⟩ | ⟨hje, _⟩
          · rcases getElem?_set_cases hold with ⟨_, hbx2, _⟩ | ⟨hji2, hold2⟩
            · rw [hbx2]
            · exact hsole j b hold2 hji2
          · exact absurd hje hji
        · intro hne
          replace hne : alookup (getKey args) (aset (getKey args)
              (⟨.pending (s.attempts.set i { a with aborted := true }).length, none,
                args, none⟩ : CacheEntry Data)
              (aerase (getKey args) s.cache)) = none := hne
          rw [alookup_aset_self] at hne
          cases hne
    · rw [startLoading, phase1_noprio s args false e he hprio,
        phase2_of_read_hit s args e he]
      exact ⟨hInv.keys, hInv.abns, hInv.finab, hInv.runst, hInv.entry, hInv.noentry⟩

theorem c1Inv_start {Data : Type} (key : String) (s : SysState Data) (m : Nat)
    (hInv : C1Inv key s) : C1Inv key (startAttempt s m) := by
  rw [startAttempt]
  cases hm : s.attempts[m]? with
  | none => exact hInv
  | some b =>
    simp only []
    by_cases hq : b.phase = .queued
    · rw [if_pos hq]
      by_cases hab : b.aborted = true
      · rw [if_pos hab]
        constructor
        · intro j c hj
          rcases getElem?_set_cases hj with ⟨_, hcx, _⟩ | ⟨_, hold⟩
          · rw [hcx]
            exact hInv.keys m b hm
          · exact hInv.keys j c hold
        · intro j c hj
          rcases getElem?_set_cases hj with ⟨_, hcx, _⟩ | ⟨_, hold⟩
          · rw [hcx]
            intro _
            exact hInv.abns m b hm hab
          · exact hInv.abns j c hold
        · intro j c hj
          rcases getElem?_set_cases hj with ⟨_, hcx, _⟩ | ⟨_, hold⟩
          · rw [hcx]
            intro _
            exact hab
          · exact hInv.finab j c hold
        · intro j c hj
          rcases getElem?_set_cases hj with ⟨_, hcx, _⟩ | ⟨_, hold⟩
          · rw [hcx]
            intro h2
            simp at h2
          · exact hInv.runst j c hold
        · intro e hee
          replace hee : alookup key s.cache = some e := hee
          obtain ⟨i, a, hpend, ha, hnab, hsole⟩ := hInv.entry e hee
          have him : m ≠ i := by
            intro h2
            rw [h2, ha] at hm
            cases hm
            exact absurd hab (by simp [hnab])
          refine ⟨i, a, hpend,
            by rw [List.getElem?_set_ne him]; exact ha, hnab, ?_⟩
          intro j c hj hji
          rcases getElem?_set_cases hj with ⟨_, hcx, _⟩ | ⟨_, hold⟩
          · rw [hcx]
            exact hab
          · exact hsole j c hold hji
        · intro hne
          replace hne : alookup key s.cache = none := hne
          have hnil := hInv.noentry hne
          rw [hnil] at hm
          cases hm
      · rw [if_neg hab]
        have hab2 : b.aborted = false := by
          revert hab
          cases b.aborted <;> simp
        constructor
        · intro j c hj
          rcases getElem?_set_cases hj with ⟨_, hcx, _⟩ | ⟨_, hold⟩
          · rw [hcx]
            exact hInv.keys m b hm
          · exact hInv.keys j c hold
        · intro j c hj
          rcases getElem?_set_cases hj with ⟨_, hcx, _⟩ | ⟨_, hold⟩
          · rw [hcx]
            intro h2
            rw [hab2] at h2
            cases h2
          · exact hInv.abns j c hold
        · intro j c hj
          rcases getElem?_set_cases hj with ⟨_, hcx, _⟩ | ⟨_, hold⟩
          · rw [hcx]
            intro h2
            simp at h2
          · exact hInv.finab j c hold
        · intro j c hj
          rcases getElem?_set_cases hj with ⟨_, hcx, _⟩ | ⟨_, hold⟩
          · rw [hcx]
            intro _
            rfl
          · exact hInv.runst j c hold
        · intro e hee
          replace hee : alookup key s.cache = some e := hee
          obtain ⟨i, a, hpend, ha, hnab, hsole⟩ := hInv.entry e hee
          have him : m = i := by
            by_contra h2
            exact absurd (hsole m b hm h2) (by simp [hab2])
          subst him
          rw [ha] at hm
          cases hm
          refine ⟨m, { b with started := true, phase := .running }, hpend,
            List.getElem?_set_self (List.getElem?_eq_some_iff.mp ha).1, hab2, ?_⟩
          intro j c hj hji
          rcases getElem?_set_cases hj with ⟨hje, _, _⟩ | ⟨_, hold⟩
          · exact absurd hje hji
          · exact hsole j c hold hji
        · intro hne
          replace hne : alookup key s.cache = none := hne
          have hnil := hInv.noentry hne
          rw [hnil] at hm
          cases hm
    · rw [if_neg hq]
      exact hInv

theorem c1_trace {Data : Type} (key : String) (evs : List (Event Data)) :
    (∀ ev ∈ evs, readsAndStarts key ev) → ∀ s : SysState Data, C1Inv key s →
    C1Inv key (runEvents s evs) ∧
    ((alookup key s.cache).isSome = true →
      (alookup key (runEvents s evs).cache).isSome = true) ∧
    ((∃ args, Event.read args ∈ evs) →
      (alookup key (runEvents s evs).cache).isSome = true) := by
  induction evs with
  | nil =>
    intro _ s h
    refine ⟨h, id, ?_⟩
    rintro ⟨args, hmem⟩
    cases hmem
  | cons ev t ih =>
    intro hevs s h
    have hev := hevs ev (List.mem_cons_self ev t)
    have ht : ∀ e2 ∈ t, readsAndStarts key e2 :=
      fun e2 he2 => hevs e2 (List.mem_cons_of_mem _ he2)
    cases ev with
    | read args =>
      have hkey : getKey args = key := hev
      subst hkey
      have hstep : C1Inv (getKey args) (stepEv s (.read args)) := c1Inv_read s args h
      have hsome : (alookup (getKey args) (stepEv s (.read args)).cache).isSome = true :=
        read_creates_entry s args
      obtain ⟨hi1, hi2, _⟩ := ih ht _ hstep
      exact ⟨hi1, fun _ => hi2 hsome, fun _ => hi2 hsome⟩
    | start m =>
      have hstep : C1Inv key (stepEv s (.start m)) := c1Inv_start key s m h
      obtain ⟨hi1, hi2, hi3⟩ := ih ht _ hstep
      refine ⟨hi1, ?_, ?_⟩
      · intro hs
        apply hi2
        show (alookup key (startAttempt s m).cache).isSome = true
        rw [startAttempt_cache]
        exact hs
      · rintro ⟨args, hmem⟩
        rcases List.mem_cons.mp hmem with hmem2 | hmem2
        · cases hmem2
        · exact hi3 ⟨args, hmem2⟩
    | preload args => exact hev.elim
    | invalidate args => exact hev.elim
    | invalidateAll b => exact hev.elim
    | subscribe k2 => exact hev.elim
    | unsubscribe k2 => exact hev.elim
    | settle m o => exact hev.elim

theorem c1Inv_initState {Data : Type} (key : String) : C1Inv key (initState Data) := by
  constructor
  · intro j a hj
    simp [initState] at hj
  · intro j a hj
    simp [initState] at hj
  · intro j a hj
    simp [initState] at hj
  · intro j a hj
    simp [initState] at hj
  · intro e hee
    simp [initState, alookup] at hee
  · intro _
    rfl

/-- C1: along any trace of reads sharing one fingerprint (with scheduler
starts but no settlement for that fingerprint yet), the fetch function runs
at most once; and once at least one read was issued and every queued body
has been given its turn, it has run exactly once. A read that finds an
entry submits no new attempt (unless it first cancels the old one by
preemption), and a cancelled attempt skips its fetch call entirely, which
is what keeps the count at one. -/
theorem dedup_single_fetch {Data : Type} (evs : List (Event Data)) (key : String)
    (hevs : ∀ ev ∈ evs, readsAndStarts key ev) :
    fetchCalls (runEvents (initState Data) evs) key ≤ 1 ∧
    ((∃ args, Event.read args ∈ evs) →
      (∀ (j : Nat) (a : Attempt), (runEvents (initState Data) evs).attempts[j]? = some a →
        a.phase ≠ APhase.queued) →
      fetchCalls (runEvents (initState Data) evs) key = 1) := by
  obtain ⟨hfinal, _, hsome⟩ := c1_trace key evs hevs (initState Data) (c1Inv_initState key)
  have hle : fetchCalls (runEvents (initState Data) evs) key ≤ 1 := by
    cases he : alookup key (runEvents (initState Data) evs).cache with
    | none =>
      have hnil := hfinal.noentry he
      rw [fetchCalls, hnil]
      simp
    | some e =>
      obtain ⟨i, a, _, ha, hnab, hsole⟩ := hfinal.entry e he
      rw [fetchCalls]
      apply filter_length_le_one_idx _ _ i
      intro j b hj hp
      by_contra hji
      have hab := hsole j b hj hji
      have hns := hfinal.abns j b hj hab
      rw [Bool.and_eq_true] at hp
      rw [hns] at hp
      exact absurd hp.2 (by simp)
  refine ⟨hle, ?_⟩
  intro hread hall
  have hs := hsome hread
  cases he : alookup key (runEvents (initState Data) evs).cache with
  | none =>
    rw [he] at hs
    simp at hs
  | some e =>
    obtain ⟨i, a, _, ha, hnab, hsole⟩ := hfinal.entry e he
    have hq : a.phase ≠ .queued := hall i a ha
    have hrunning : a.phase = .running := by
      cases hph : a.phase with
      | queued => exact absurd hph hq
      | running => rfl
      | finished => exact absurd (hfinal.finab i a ha hph) (by simp [hnab])
    have hst : a.started = true := hfinal.runst i a ha hrunning
    have hge : 1 ≤ fetchCalls (runEvents (initState Data) evs) key := by
      rw [fetchCalls]
      have hmem : a ∈ (runEvents (initState Data) evs).attempts := List.getElem?_mem ha
      have hmf : a ∈ (runEvents (initState Data) evs).attempts.filter
          (fun b => b.key == key && b.started) := by
        rw [List.mem_filter]
        exact ⟨hmem, by simp [hfinal.keys i a ha, hst]⟩
      have := List.length_pos.mpr (List.ne_nil_of_mem hmf)
      omega
    omega

/-- Witness for C1: two reads of the same fingerprint plus both scheduler
turns trigger exactly one fetch call. -/
theorem dedup_single_fetch_witness :
    fetchCalls (runEvents (initState Int)
      [.read wreq, .read wreq, .start 0, .start 1]) wkey = 1 :=
  (dedup_single_fetch [.read wreq, .read wreq, .start 0, .start 1] wkey
    (by
      intro ev hmem
      rcases List.mem_cons.mp hmem with h | hmem
      · rw [h]; rfl
      rcases List.mem_cons.mp hmem with h | hmem
      · rw [h]; rfl
      rcases List.mem_cons.mp hmem with h | hmem
      · rw [h]; trivial
      rcases List.mem_cons.mp hmem with h | hmem
      · rw [h]; trivial
      · cases hmem)).2
    ⟨wreq, by simp⟩
    (by
      intro j a hj
      rw [show (runEvents (initState Int)
          [Event.read wreq, .read wreq, .start 0, .start 1]).attempts
        = [⟨wkey, wreq, true, false, .running⟩] from by decide] at hj
      cases j with
      | zero =>
        simp only [List.getElem?_cons_zero, Option.some.injEq] at hj
        rw [← hj]
        decide
      | succ n =>
        simp at hj)

end CreateUseAsync
